import Mathlib

/-!
# Verification of the `viper` lexical front end

Shallow embedding of `src/lexer/lexer.rs` (struct `Lexer` and its methods)
and `src/lexer/token.rs` (the `TokenType` / `Token` data model), together
with proofs about the embedding.

Modelling conventions:
* Rust `u32`/`usize` cursor fields are modelled as `Nat`; no cursor
  arithmetic in the source can overflow 32 bits for the inputs considered,
  and the one place where machine width matters (`source.len()` is a
  *byte* count while the cursor counts *chars*) is modelled exactly via
  `utf8_len`.
* `i64` parsing (`number.parse::<i64>().unwrap()`) is modelled by
  `parse_i64`; a failed `unwrap` (magnitude overflow) is an abort.
* `f64` payloads are never inspected by any property proved here, so a
  float literal token carries its sign and digit text instead of an IEEE
  value (`TokenType.Float negated digits`).
* Rust `panic!`-style aborts (`Option::unwrap` on `None`, integer parse
  `unwrap`, `Vec` index out of range) are the `Res.abort` outcome, tagged
  with the site that aborted.
* The Rust `loop`s become fuel-indexed recursions (`Res.outOfFuel` when
  fuel runs out); fuel sufficiency is proved, so `outOfFuel` is shown
  unreachable from the public entry point.
* Rust `str::lines` (used once, to precompute diagnostic context lines)
  is modelled by `rust_lines`: split on a line feed, strip one carriage
  return before each line feed, drop a trailing empty segment.
-/

/-- Number of bytes of the UTF-8 encoding of one scalar value: Rust's
`char::len_utf8`. -/
def char_size (c : Char) : Nat :=
  if c.toNat ≤ 0x7F then 1
  else if c.toNat ≤ 0x7FF then 2
  else if c.toNat ≤ 0xFFFF then 3
  else 4

/-- UTF-8 byte length of a character list: Rust's `String::len`. -/
def utf8_len : List Char → Nat
  | [] => 0
  | c :: cs => char_size c + utf8_len cs

/-- Strip one trailing carriage return, as Rust `str::lines` does for a
line terminated by a carriage return + line feed pair. -/
def strip_cr (l : List Char) : List Char :=
  match l.getLast? with
  | some '\r' => l.dropLast
  | _ => l

/-- Worker for `rust_lines`: `cur` is the (reversed-in-order, appended)
current segment. -/
def lines_go (cur : List Char) : List Char → List (List Char)
  | [] => if cur.isEmpty then [] else [cur]
  | c :: rest =>
    if c = '\n' then strip_cr cur :: lines_go [] rest
    else lines_go (cur ++ [c]) rest

/-- Rust `str::lines`, collected to a list: segments split at line feeds,
one carriage return stripped before each line feed, and no trailing empty
segment for a trailing line feed. -/
def rust_lines (cs : List Char) : List (List Char) :=
  lines_go [] cs

/-- Numeric value of a decimal digit run (the accumulator loop inside
Rust's integer `FromStr`). -/
def digits_val (cs : List Char) : Nat :=
  cs.foldl (fun a c => 10 * a + (c.toNat - 48)) 0

/-- `i64::MAX`. -/
def i64_max : Nat := 9223372036854775807

/-- `"...".parse::<i64>()` restricted to the digit runs the number scanner
produces (no sign, no dot): succeeds exactly when the value fits. -/
def parse_i64 (cs : List Char) : Option Int :=
  if cs.isEmpty then none
  else if digits_val cs ≤ i64_max then some (Int.ofNat (digits_val cs)) else none

/-- `TokenType` from `src/lexer/token.rs`.  The float payload is kept as
its sign and digit text (see the module comment). -/
inductive TokenType where
  | LParen | RParen | LBrace | RBrace
  | OpAssign
  | OpAdd | OpSub | OpMul | OpDiv | OpMod | OpPow
  | OpEq | OpNe | OpLt | OpLe | OpGt | OpGe
  | OpAnd | OpOr | OpNot
  | Comma | Dot | Arrow | Range
  | KWIf | KWElse | KWFor | KWReturn | KWBreak | KWContinue | KWIn
  | Ident (name : String)
  | Int (value : Int)
  | Float (negated : Bool) (digits : String)
  | String (value : String)
  | Bool (value : Bool)
  | EOF
  deriving DecidableEq, Repr

/-- `Token` as constructed by `Lexer::make_token` in `src/lexer/lexer.rs`
(`token_type`, `line`, `column`, `index`, `filename`, `length`). -/
structure Token where
  token_type : TokenType
  line : Nat
  column : Nat
  index : Nat
  filename : String
  length : Nat
  deriving DecidableEq, Repr

/-- `TokenisationError` from `src/lexer/lexer.rs`. -/
structure TokenisationError where
  line : Nat
  column : Nat
  index : Nat
  filename : String
  message : String
  line_context : String
  deriving DecidableEq, Repr

/-- Sites at which the Rust code can abort the process (a `panic`). -/
inductive AbortKind where
  /-- `number.parse().unwrap()` fails on a too-large integer literal. -/
  | intOverflow
  /-- `self.peek(0).unwrap()` fails (`is_end` compares the char cursor
  against the byte length, so the two can disagree). -/
  | peekNone
  /-- `self.lines[(self.line - 1) as usize]` indexes out of range. -/
  | lineCtx
  deriving DecidableEq, Repr

/-- Outcome of running a lexer operation: success, a tokenisation error,
a process abort, or exhausted fuel (never reachable; proved below). -/
inductive Res (α : Type) where
  | ok (value : α)
  | err (e : TokenisationError)
  | abort (k : AbortKind)
  | outOfFuel
  deriving DecidableEq, Repr

/-- The `Lexer` struct.  `source` is the char sequence of the source text
(the Rust field is a `String` traversed with `chars().nth`). -/
structure Lexer where
  filename : String
  source : List Char
  index : Nat
  line : Nat
  column : Nat
  lines : List String
  deriving DecidableEq, Repr

namespace Lexer

/-- `Lexer::new`. -/
def new (filename source : String) : Lexer :=
  { filename := filename
    source := source.data
    index := 0
    line := 1
    column := 1
    lines := (rust_lines source.data).map (fun l => String.mk l) }

/-- `Lexer::peek`. -/
def peek (st : Lexer) (offset : Nat) : Option Char :=
  st.source[st.index + offset]?

/-- `Lexer::advance`. -/
def advance (st : Lexer) : Option Char × Lexer :=
  match st.source[st.index]? with
  | some c => (some c, { st with index := st.index + 1, column := st.column + 1 })
  | none => (none, st)

/-- `Lexer::is_end`: note the Rust comparison is between the *char*
cursor `index` and the *byte* length `source.len()`. -/
def is_end (st : Lexer) : Bool :=
  decide (utf8_len st.source ≤ st.index)

/-- `Lexer::is_boundary`. -/
def is_boundary (st : Lexer) : Bool :=
  match st.peek 0 with
  | none => true
  | some c =>
    match c with
    | ' ' | '\t' | '\r' | '\n' | '(' | ')' | '{' | '}' | '=' | '+' | '-'
    | '*' | '/' | '%' | '^' | ',' | '.' | '!' | '>' | '<' | '&' | '|' => true
    | _ => false

/-- `Lexer::error`.  The Rust code indexes `self.lines[(self.line - 1)]`,
which aborts when out of range. -/
def error {α : Type} (st : Lexer) (message : String) : Res α :=
  match st.lines[st.line - 1]? with
  | some ctx =>
    .err { line := st.line, column := st.column, index := st.index
           filename := st.filename, message := message, line_context := ctx }
  | none => .abort .lineCtx

/-- `Lexer::make_token`. -/
def make_token (st : Lexer) (token_type : TokenType) (length : Nat) : Token :=
  { token_type := token_type
    line := st.line
    column := st.column
    index := st.index
    filename := st.filename
    length := length }

/-- `Lexer::skip_whitespace`. -/
def skip_whitespace : Nat → Lexer → Res Lexer
  | 0, _ => .outOfFuel
  | fuel + 1, st =>
    match st.peek 0 with
    | none => .ok st
    | some c =>
      match c with
      | ' ' | '\t' | '\r' => skip_whitespace fuel (st.advance).2
      | '\n' =>
        let st := (st.advance).2
        skip_whitespace fuel { st with line := st.line + 1, column := 1 }
      | _ => .ok st

/-- The message of the second-decimal-point error (it quotes the dot). -/
def msg_second_dot : String :=
  "Illegal second decimal point in float literal: " ++ String.mk ['\x27', '.', '\x27']

/-- The digit-consuming `loop` inside `Lexer::get_number`. -/
def number_scan : Nat → Lexer → List Char → Bool → Res (List Char × Bool × Lexer)
  | 0, _, _, _ => .outOfFuel
  | fuel + 1, st, number, is_float =>
    match st.peek 0 with
    | none => .ok (number, is_float, st)
    | some c =>
      if c.isDigit then number_scan fuel (st.advance).2 (number ++ [c]) is_float
      else if c = '.' then
        match st.peek 1 with
        | some '.' => .ok (number, is_float, st)
        | _ =>
          if is_float then st.error msg_second_dot
          else number_scan fuel (st.advance).2 (number ++ [c]) true
      else .ok (number, is_float, st)

/-- `Lexer::get_number`.  The token length is the digit text's length
(all scanned chars are ASCII, so chars = bytes).  A failed integer parse
is the `unwrap` abort. -/
def get_number (fuel : Nat) (st : Lexer) : Res (Token × Lexer) :=
  match number_scan fuel st [] false with
  | .ok (number, is_float, st) =>
    if st.is_boundary then
      if is_float then
        .ok (st.make_token (.Float false (String.mk number)) number.length, st)
      else
        match parse_i64 number with
        | some v => .ok (st.make_token (.Int v) number.length, st)
        | none => .abort .intOverflow
    else
      match st.peek 0 with
      | some c => st.error ("Unexpected character in numeric literal: " ++ c.toString)
      | none => .abort .peekNone
  | .err e => .err e
  | .abort k => .abort k
  | .outOfFuel => .outOfFuel

/-- The char-consuming `loop` inside `Lexer::get_ident`. -/
def ident_scan : Nat → Lexer → List Char → Res (List Char × Lexer)
  | 0, _, _ => .outOfFuel
  | fuel + 1, st, ident =>
    match st.peek 0 with
    | none => .ok (ident, st)
    | some c =>
      if c.isAlphanum || c = '_' then ident_scan fuel (st.advance).2 (ident ++ [c])
      else .ok (ident, st)

/-- `Lexer::get_ident` (identifier chars are ASCII, so the Rust byte
length `ident.len()` equals the char count). -/
def get_ident (fuel : Nat) (st : Lexer) : Res (Token × Lexer) :=
  match ident_scan fuel st [] with
  | .ok (ident, st) =>
    if st.is_boundary then
      match String.mk ident with
      | "if" => .ok (st.make_token .KWIf 2, st)
      | "else" => .ok (st.make_token .KWElse 4, st)
      | "for" => .ok (st.make_token .KWFor 3, st)
      | "return" => .ok (st.make_token .KWReturn 6, st)
      | "break" => .ok (st.make_token .KWBreak 5, st)
      | "continue" => .ok (st.make_token .KWContinue 8, st)
      | "in" => .ok (st.make_token .KWIn 2, st)
      | "true" => .ok (st.make_token (.Bool true) 4, st)
      | "false" => .ok (st.make_token (.Bool false) 5, st)
      | s => .ok (st.make_token (.Ident s) ident.length, st)
    else
      match st.peek 0 with
      | some c => st.error ("Unexpected character in identifier: " ++ c.toString)
      | none => .abort .peekNone
  | .err e => .err e
  | .abort k => .abort k
  | .outOfFuel => .outOfFuel

/-- `Lexer::get_single`.  The Rust code advances before matching, so the
error for an unmatched char reports the post-advance position. -/
def get_single (st : Lexer) : Res (Token × Lexer) :=
  match st.peek 0 with
  | none => .abort .peekNone
  | some c =>
    let st := (st.advance).2
    match c with
    | '+' => .ok (st.make_token .OpAdd 1, st)
    | '-' => .ok (st.make_token .OpSub 1, st)
    | '*' => .ok (st.make_token .OpMul 1, st)
    | '/' => .ok (st.make_token .OpDiv 1, st)
    | '%' => .ok (st.make_token .OpMod 1, st)
    | ',' => .ok (st.make_token .Comma 1, st)
    | '.' => .ok (st.make_token .Dot 1, st)
    | '!' => .ok (st.make_token .OpNot 1, st)
    | '=' => .ok (st.make_token .OpAssign 1, st)
    | '<' => .ok (st.make_token .OpLt 1, st)
    | '>' => .ok (st.make_token .OpGt 1, st)
    | '(' => .ok (st.make_token .LParen 1, st)
    | ')' => .ok (st.make_token .RParen 1, st)
    | '{' => .ok (st.make_token .LBrace 1, st)
    | '}' => .ok (st.make_token .RBrace 1, st)
    | _ => st.error ("Unexpected character: " ++ c.toString)

/-- `Lexer::get_multi`: two-char lookahead, committing both advances only
on a match, otherwise falling back to `get_single`. -/
def get_multi (st : Lexer) : Res (Token × Lexer) :=
  match st.peek 0 with
  | none => .abort .peekNone
  | some c =>
    match st.peek 1 with
    | none => st.get_single
    | some next_c =>
      match c, next_c with
      | '*', '*' =>
        let st := (((st.advance).2).advance).2
        .ok (st.make_token .OpPow 2, st)
      | '=', '=' =>
        let st := (((st.advance).2).advance).2
        .ok (st.make_token .OpEq 2, st)
      | '>', '=' =>
        let st := (((st.advance).2).advance).2
        .ok (st.make_token .OpGe 2, st)
      | '<', '=' =>
        let st := (((st.advance).2).advance).2
        .ok (st.make_token .OpLe 2, st)
      | '!', '=' =>
        let st := (((st.advance).2).advance).2
        .ok (st.make_token .OpNe 2, st)
      | '&', '&' =>
        let st := (((st.advance).2).advance).2
        .ok (st.make_token .OpAnd 2, st)
      | '|', '|' =>
        let st := (((st.advance).2).advance).2
        .ok (st.make_token .OpOr 2, st)
      | '=', '>' =>
        let st := (((st.advance).2).advance).2
        .ok (st.make_token .Arrow 2, st)
      | '.', '.' =>
        let st := (((st.advance).2).advance).2
        .ok (st.make_token .Range 2, st)
      | _, _ => st.get_single

/-- The char-consuming `loop` inside `Lexer::get_string`. -/
def string_scan : Nat → Lexer → List Char → Bool → Res (List Char × Lexer)
  | 0, _, _, _ => .outOfFuel
  | fuel + 1, st, value, escape =>
    match st.advance with
    | (none, st) => st.error ("Unterminated string literal")
    | (some c, st) =>
      if escape then
        match c with
        | 'n' => string_scan fuel st (value ++ ['\n']) false
        | 'r' => string_scan fuel st (value ++ ['\r']) false
        | 't' => string_scan fuel st (value ++ ['\t']) false
        | '0' => string_scan fuel st (value ++ ['\x00']) false
        | '\x27' => string_scan fuel st (value ++ ['\x27']) false
        | '"' => string_scan fuel st (value ++ ['"']) false
        | '\\' => string_scan fuel st (value ++ ['\\']) false
        | _ => st.error ("Invalid escape sequence: \\" ++ c.toString)
      else if c = '\\' then string_scan fuel st value true
      else if c = '"' then .ok (value, st)
      else string_scan fuel st (value ++ [c]) false

/-- `Lexer::get_string`.  Rust's `value.len()` is the *byte* length of
the escaped value, modelled exactly by `utf8_len`. -/
def get_string (fuel : Nat) (st : Lexer) : Res (Token × Lexer) :=
  let st := (st.advance).2
  match string_scan fuel st [] false with
  | .ok (value, st) =>
    .ok (st.make_token (.String (String.mk value)) (utf8_len value + 2), st)
  | .err e => .err e
  | .abort k => .abort k
  | .outOfFuel => .outOfFuel

/-- The in-place negation performed by `get_token` on the token returned
for a `-`-prefixed numeric literal. -/
def negate_token : TokenType → TokenType
  | .Int i => .Int (-i)
  | .Float negated digits => .Float (!negated) digits
  | t => t

/-- `Lexer::get_token`. -/
def get_token (fuel : Nat) (st : Lexer) : Res (Token × Lexer) :=
  match skip_whitespace fuel st with
  | .ok st =>
    if st.is_end then .ok (st.make_token .EOF 0, st)
    else
      match st.peek 0 with
      | none => .abort .peekNone
      | some c =>
        match c with
        | '-' =>
          match st.peek 1 with
          | some d =>
            if d.isDigit then
              match get_number fuel (st.advance).2 with
              | .ok (t, st') => .ok ({ t with token_type := negate_token t.token_type }, st')
              | .err e => .err e
              | .abort k => .abort k
              | .outOfFuel => .outOfFuel
            else
              let st := (st.advance).2
              .ok (st.make_token .OpSub 1, st)
          | none =>
            let st := (st.advance).2
            .ok (st.make_token .OpSub 1, st)
        | '+' | '*' | '/' | '%' | ',' | '.' | '!' | '=' | '<' | '>' | '&'
        | '|' | '(' | ')' | '{' | '}' => st.get_multi
        | _ =>
          if c.isDigit then get_number fuel st
          else if c.isAlpha then get_ident fuel st
          else if c = '"' then get_string fuel st
          else st.error ("Unexpected character: " ++ c.toString)
  | .err e => .err e
  | .abort k => .abort k
  | .outOfFuel => .outOfFuel

/-- The `loop` inside `Lexer::tokenise`: collect tokens until `EOF`. -/
def tokenise_loop : Nat → Lexer → Res (List Token)
  | 0, _ => .outOfFuel
  | fuel + 1, st =>
    match get_token (fuel + 1) st with
    | .ok (t, st') =>
      if t.token_type = .EOF then .ok []
      else
        match tokenise_loop fuel st' with
        | .ok ts => .ok (t :: ts)
        | .err e => .err e
        | .abort k => .abort k
        | .outOfFuel => .outOfFuel
    | .err e => .err e
    | .abort k => .abort k
    | .outOfFuel => .outOfFuel

/-- `Lexer::tokenise`, with enough fuel for the whole source (proved
sufficient below). -/
def tokenise (st : Lexer) : Res (List Token) :=
  tokenise_loop (st.source.length + 1) st

end Lexer

/-! ## Whitespace and basic byte-length facts -/

/-- The whitespace characters skipped by the scanning loop. -/
def is_ws (c : Char) : Bool :=
  c = ' ' || c = '\t' || c = '\r' || c = '\n'

theorem one_le_char_size (c : Char) : 1 ≤ char_size c := by
  unfold char_size; split_ifs <;> omega

theorem char_size_of_ascii (c : Char) (h : c.toNat ≤ 127) : char_size c = 1 := by
  unfold char_size; simp [h]

theorem two_le_char_size_of_not_ascii (c : Char) (h : 127 < c.toNat) : 2 ≤ char_size c := by
  unfold char_size; split_ifs <;> omega

theorem length_le_utf8_len (cs : List Char) : cs.length ≤ utf8_len cs := by
  induction cs with
  | nil => simp [utf8_len]
  | cons c rest ih =>
    have := one_le_char_size c
    simp only [utf8_len, List.length_cons]; omega

theorem utf8_len_of_ascii (cs : List Char) (h : ∀ c ∈ cs, c.toNat ≤ 127) :
    utf8_len cs = cs.length := by
  induction cs with
  | nil => simp [utf8_len]
  | cons c rest ih =>
    have h1 := char_size_of_ascii c (h c (by simp))
    simp only [utf8_len, List.length_cons, h1, ih (fun x hx => h x (by simp [hx]))]
    omega

theorem ascii_of_utf8_len_le (cs : List Char) (h : utf8_len cs ≤ cs.length) :
    ∀ c ∈ cs, c.toNat ≤ 127 := by
  induction cs with
  | nil => simp
  | cons c rest ih =>
    intro x hx
    rw [List.mem_cons] at hx
    have hrest := length_le_utf8_len rest
    simp only [utf8_len, List.length_cons] at h
    rcases hx with rfl | hx
    · by_contra hbig
      have := two_le_char_size_of_not_ascii x (by omega)
      omega
    · have := one_le_char_size c
      exact ih (by omega) x hx

/-! ## Length bounds for the diagnostic line table -/

theorem lines_go_pos (cs : List Char) : ∀ cur, cur ≠ [] → 1 ≤ (lines_go cur cs).length := by
  induction cs with
  | nil =>
    intro cur h
    simp only [lines_go]
    simp [List.isEmpty_iff, h]
  | cons c rest ih =>
    intro cur _
    simp only [lines_go]
    split
    · simp
    · exact ih (cur ++ [c]) (by simp)

theorem count_lt_lines_go (cs : List Char) :
    ∀ (p : Nat) (cur : List Char) (c : Char), cs[p]? = some c → c ≠ '\n' →
      (cs.take p).count '\n' + 1 ≤ (lines_go cur cs).length := by
  induction cs with
  | nil => intro p cur c hget _; simp at hget
  | cons x rest ih =>
    intro p cur c hget hne
    cases p with
    | zero =>
      simp only [List.getElem?_cons_zero, Option.some.injEq] at hget
      subst hget
      simp only [List.take_zero, List.count_nil, Nat.zero_add]
      simp only [lines_go]
      split
      · next hx => exact absurd hx hne
      · exact lines_go_pos rest (cur ++ [x]) (by simp)
    | succ q =>
      simp only [List.getElem?_cons_succ] at hget
      simp only [List.take_succ_cons]
      simp only [lines_go]
      split
      · next hx =>
        subst hx
        have := ih q [] c hget hne
        simp only [List.count_cons_self, List.length_cons]
        omega
      · next hx =>
        have := ih q (cur ++ [x]) c hget hne
        rw [List.count_cons_of_ne (by intro hc; exact hx hc.symm)]
        omega

/-! ## The scanning invariant -/

/-- Invariant of every reachable `Lexer` state: the cursor is inside the
source, line and column are 1-based, the line counter never exceeds the
number of line feeds consumed plus one, and `lines` is the precomputed
table built by `new`. -/
def LexInv (st : Lexer) : Prop :=
  st.index ≤ st.source.length ∧
  1 ≤ st.line ∧ 1 ≤ st.column ∧
  st.line ≤ (st.source.take st.index).count '\n' + 1 ∧
  st.lines = (rust_lines st.source).map (fun l => String.mk l)

/-- The line-context lookup in `error` is in range: some position holds a
non-line-feed character witnessing enough entries in the line table. -/
def SafeLine (st : Lexer) : Prop :=
  ∃ p c, st.source[p]? = some c ∧ c ≠ '\n' ∧
    st.line ≤ (st.source.take p).count '\n' + 1

theorem lexinv_new (filename source : String) : LexInv (Lexer.new filename source) := by
  refine ⟨by simp [Lexer.new], by simp [Lexer.new], by simp [Lexer.new], ?_, by simp [Lexer.new]⟩
  simp [Lexer.new]

theorem error_spec {α : Type} (st : Lexer) (msg : String)
    (hinv : LexInv st) (hsafe : SafeLine st) :
    ∃ ctx, Lexer.error (α := α) st msg =
      .err { line := st.line, column := st.column, index := st.index
             filename := st.filename, message := msg, line_context := ctx } := by
  obtain ⟨_, hl1, _, _, hlines⟩ := hinv
  obtain ⟨p, c, hget, hne, hle⟩ := hsafe
  have hlen : st.line ≤ (rust_lines st.source).length :=
    le_trans hle (count_lt_lines_go st.source p [] c hget hne)
  have hlt : st.line - 1 < st.lines.length := by
    rw [hlines, List.length_map]; omega
  refine ⟨st.lines.get ⟨st.line - 1, hlt⟩, ?_⟩
  unfold Lexer.error
  rw [List.getElem?_eq_getElem hlt]
  rfl

theorem peek_zero (st : Lexer) : st.peek 0 = st.source[st.index]? := by
  simp [Lexer.peek]

theorem advance_some (st : Lexer) (c : Char) (h : st.source[st.index]? = some c) :
    st.advance = (some c, { st with index := st.index + 1, column := st.column + 1 }) := by
  unfold Lexer.advance; rw [h]

theorem advance_of_none (st : Lexer) (h : st.source[st.index]? = none) :
    st.advance = (none, st) := by
  unfold Lexer.advance; rw [h]

theorem count_take_mono (cs : List Char) (i : Nat) :
    (cs.take i).count '\n' ≤ (cs.take (i + 1)).count '\n' := by
  rw [List.take_succ]
  simp [List.count_append]

theorem lexinv_step (st : Lexer) (c : Char) (h : st.source[st.index]? = some c)
    (hinv : LexInv st) :
    LexInv { st with index := st.index + 1, column := st.column + 1 } := by
  obtain ⟨hidx, hl, hc, hcount, hlines⟩ := hinv
  have hlt : st.index < st.source.length := (List.getElem?_eq_some.mp h).1
  refine ⟨hlt, hl, ?_, ?_, hlines⟩
  · show 1 ≤ st.column + 1
    omega
  · show st.line ≤ (st.source.take (st.index + 1)).count '\n' + 1
    have := count_take_mono st.source st.index
    omega

theorem lexinv_step_nl (st : Lexer) (h : st.source[st.index]? = some '\n')
    (hinv : LexInv st) :
    LexInv { st with index := st.index + 1, column := 1, line := st.line + 1 } := by
  obtain ⟨hidx, hl, hc, hcount, hlines⟩ := hinv
  have hlt : st.index < st.source.length := (List.getElem?_eq_some.mp h).1
  refine ⟨hlt, ?_, le_refl 1, ?_, hlines⟩
  · show 1 ≤ st.line + 1
    omega
  · show st.line + 1 ≤ (st.source.take (st.index + 1)).count '\n' + 1
    have : (st.source.take (st.index + 1)).count '\n'
        = (st.source.take st.index).count '\n' + 1 := by
      rw [List.take_succ, h]
      simp [List.count_append]
    omega

theorem skip_whitespace_spec (fuel : Nat) : ∀ (st : Lexer), LexInv st →
    st.source.length - st.index < fuel →
    ∃ st', Lexer.skip_whitespace fuel st = .ok st' ∧ LexInv st' ∧
      st'.source = st.source ∧ st'.filename = st.filename ∧ st'.lines = st.lines ∧
      st.index ≤ st'.index ∧
      (st'.peek 0 = none ∨ ∃ c, st'.peek 0 = some c ∧ is_ws c = false) := by
  induction fuel with
  | zero => intro st _ h; omega
  | succ f ih =>
    intro st hinv hfuel
    cases hpk : st.peek 0 with
    | none =>
      exact ⟨st, by simp [Lexer.skip_whitespace, hpk], hinv, rfl, rfl, rfl,
        le_refl _, Or.inl hpk⟩
    | some c =>
      have hpk' : st.source[st.index]? = some c := by rw [← peek_zero]; exact hpk
      have hadv := advance_some st c hpk'
      have hlt : st.index < st.source.length := (List.getElem?_eq_some.mp hpk').1
      by_cases hsp : c = ' '
      · subst hsp
        obtain ⟨st', g1, g2, g3, g4, g5, g6, g7⟩ :=
          ih _ (lexinv_step st _ hpk' hinv)
            (show st.source.length - (st.index + 1) < f by omega)
        refine ⟨st', ?_, g2, g3, g4, g5,
          by have g6a : st.index + 1 ≤ st'.index := g6; omega, g7⟩
        simp [Lexer.skip_whitespace, hpk, hadv]
        exact g1
      · by_cases hta : c = '\t'
        · subst hta
          obtain ⟨st', g1, g2, g3, g4, g5, g6, g7⟩ :=
            ih _ (lexinv_step st _ hpk' hinv)
              (show st.source.length - (st.index + 1) < f by omega)
          refine ⟨st', ?_, g2, g3, g4, g5,
            by have g6a : st.index + 1 ≤ st'.index := g6; omega, g7⟩
          simp [Lexer.skip_whitespace, hpk, hadv]
          exact g1
        · by_cases hcr : c = '\r'
          · subst hcr
            obtain ⟨st', g1, g2, g3, g4, g5, g6, g7⟩ :=
              ih _ (lexinv_step st _ hpk' hinv)
                (show st.source.length - (st.index + 1) < f by omega)
            refine ⟨st', ?_, g2, g3, g4, g5,
              by have g6a : st.index + 1 ≤ st'.index := g6; omega, g7⟩
            simp [Lexer.skip_whitespace, hpk, hadv]
            exact g1
          · by_cases hnl : c = '\n'
            · subst hnl
              obtain ⟨st', g1, g2, g3, g4, g5, g6, g7⟩ :=
                ih _ (lexinv_step_nl st hpk' hinv)
                  (show st.source.length - (st.index + 1) < f by omega)
              refine ⟨st', ?_, g2, g3, g4, g5,
                by have g6a : st.index + 1 ≤ st'.index := g6; omega, g7⟩
              simp [Lexer.skip_whitespace, hpk, hadv]
              exact g1
            · refine ⟨st, ?_, hinv, rfl, rfl, rfl, le_refl _,
                Or.inr ⟨c, hpk, by simp [is_ws, hsp, hta, hcr, hnl]⟩⟩
              simp [Lexer.skip_whitespace, hpk, hsp, hta, hcr, hnl]

/-! ## The number scanner -/

theorem number_scan_spec (fuel : Nat) : ∀ (st : Lexer) (number : List Char) (is_float : Bool),
    LexInv st → st.source.length - st.index < fuel →
    (∃ num fl st', Lexer.number_scan fuel st number is_float = .ok (num, fl, st') ∧
      LexInv st' ∧ st'.source = st.source ∧ st'.filename = st.filename ∧
      st'.lines = st.lines ∧ st'.line = st.line ∧
      st.index ≤ st'.index ∧ st'.column = st.column + (st'.index - st.index) ∧
      num.length = number.length + (st'.index - st.index) ∧
      (∀ d, st.peek 0 = some d → d.isDigit = true → st.index + 1 ≤ st'.index)) ∨
    (∃ e, Lexer.number_scan fuel st number is_float = .err e ∧
      1 ≤ e.line ∧ 1 ≤ e.column) := by
  induction fuel with
  | zero => intro st _ _ _ h; omega
  | succ f ih =>
    intro st number is_float hinv hfuel
    cases hpk : st.peek 0 with
    | none =>
      refine Or.inl ⟨number, is_float, st, ?_, hinv, rfl, rfl, rfl, rfl, le_refl _,
        by omega, by omega, ?_⟩
      · simp [Lexer.number_scan, hpk]
      · intro d hd _; exact absurd hd (by simp)
    | some c =>
      have hpk' : st.source[st.index]? = some c := by rw [← peek_zero]; exact hpk
      have hadv := advance_some st c hpk'
      have hlt : st.index < st.source.length := (List.getElem?_eq_some.mp hpk').1
      by_cases hd : c.isDigit
      · -- digit: consume and recurse
        have heq : Lexer.number_scan (f+1) st number is_float
            = Lexer.number_scan f { st with index := st.index + 1, column := st.column + 1 }
                (number ++ [c]) is_float := by
          simp [Lexer.number_scan, hpk, hd, hadv]
        rw [heq]
        rcases ih _ (number ++ [c]) is_float (lexinv_step st c hpk' hinv)
            (show st.source.length - (st.index + 1) < f by omega) with
          ⟨num, fl, st', g0, g1, g2, g3, g4, g5, g6, g7, g8, _⟩ | ⟨e, g0, g1, g2⟩
        · have g6' : st.index + 1 ≤ st'.index := g6
          refine Or.inl ⟨num, fl, st', g0, g1, g2, g3, g4, g5, by omega, ?_, ?_, ?_⟩
          · have g7' : st'.column = st.column + 1 + (st'.index - (st.index + 1)) := g7
            omega
          · have : num.length = (number ++ [c]).length + (st'.index - (st.index + 1)) := g8
            simp only [List.length_append, List.length_cons, List.length_nil] at this
            omega
          · intro _ _ _; omega
        · exact Or.inr ⟨e, g0, g1, g2⟩
      · by_cases hdot : c = '.'
        · subst hdot
          cases hpk1 : st.peek 1 with
          | some c2 =>
            by_cases hdd : c2 = '.'
            · -- a range operator begins: stop
              subst hdd
              refine Or.inl ⟨number, is_float, st, ?_, hinv, rfl, rfl, rfl, rfl,
                le_refl _, by omega, by omega, ?_⟩
              · simp [Lexer.number_scan, hpk, hd, hpk1]
              · intro d hd' hdig
                cases hd'
                simp at hdig
            · cases is_float with
              | true =>
                -- second decimal point: error
                obtain ⟨ctx, herr⟩ := error_spec st Lexer.msg_second_dot hinv
                  ⟨st.index, '.', hpk', by decide, hinv.2.2.2.1⟩
                have heq : Lexer.number_scan (f+1) st number true
                    = Lexer.error st Lexer.msg_second_dot := by
                  simp [Lexer.number_scan, hpk, hd, hpk1, hdd]
                refine Or.inr ⟨_, by rw [heq, herr], ?_, ?_⟩
                · exact hinv.2.1
                · exact hinv.2.2.1
              | false =>
                have heq : Lexer.number_scan (f+1) st number false
                    = Lexer.number_scan f
                        { st with index := st.index + 1, column := st.column + 1 }
                        (number ++ ['.']) true := by
                  simp [Lexer.number_scan, hpk, hd, hpk1, hdd, hadv]
                rw [heq]
                rcases ih _ (number ++ ['.']) true (lexinv_step st '.' hpk' hinv)
                    (show st.source.length - (st.index + 1) < f by omega) with
                  ⟨num, fl, st', g0, g1, g2, g3, g4, g5, g6, g7, g8, _⟩ | ⟨e, g0, g1, g2⟩
                · have g6' : st.index + 1 ≤ st'.index := g6
                  refine Or.inl ⟨num, fl, st', g0, g1, g2, g3, g4, g5, by omega, ?_, ?_, ?_⟩
                  · have g7' : st'.column = st.column + 1 + (st'.index - (st.index + 1)) := g7
                    omega
                  · have : num.length = (number ++ ['.']).length + (st'.index - (st.index + 1)) := g8
                    simp only [List.length_append, List.length_cons, List.length_nil] at this
                    omega
                  · intro _ _ _; omega
                · exact Or.inr ⟨e, g0, g1, g2⟩
          | none =>
            cases is_float with
            | true =>
              obtain ⟨ctx, herr⟩ := error_spec st Lexer.msg_second_dot hinv
                ⟨st.index, '.', hpk', by decide, hinv.2.2.2.1⟩
              have heq : Lexer.number_scan (f+1) st number true
                  = Lexer.error st Lexer.msg_second_dot := by
                simp [Lexer.number_scan, hpk, hd, hpk1]
              refine Or.inr ⟨_, by rw [heq, herr], ?_, ?_⟩
              · exact hinv.2.1
              · exact hinv.2.2.1
            | false =>
              have heq : Lexer.number_scan (f+1) st number false
                  = Lexer.number_scan f
                      { st with index := st.index + 1, column := st.column + 1 }
                      (number ++ ['.']) true := by
                simp [Lexer.number_scan, hpk, hd, hpk1, hadv]
              rw [heq]
              rcases ih _ (number ++ ['.']) true (lexinv_step st '.' hpk' hinv)
                  (show st.source.length - (st.index + 1) < f by omega) with
                ⟨num, fl, st', g0, g1, g2, g3, g4, g5, g6, g7, g8, _⟩ | ⟨e, g0, g1, g2⟩
              · have g6' : st.index + 1 ≤ st'.index := g6
                refine Or.inl ⟨num, fl, st', g0, g1, g2, g3, g4, g5, by omega, ?_, ?_, ?_⟩
                · have g7' : st'.column = st.column + 1 + (st'.index - (st.index + 1)) := g7
                  omega
                · have : num.length = (number ++ ['.']).length + (st'.index - (st.index + 1)) := g8
                  simp only [List.length_append, List.length_cons, List.length_nil] at this
                  omega
                · intro _ _ _; omega
              · exact Or.inr ⟨e, g0, g1, g2⟩
        · -- not a digit, not a dot: stop
          refine Or.inl ⟨number, is_float, st, ?_, hinv, rfl, rfl, rfl, rfl, le_refl _,
            by omega, by omega, ?_⟩
          · simp [Lexer.number_scan, hpk, hd, hdot]
          · intro d hd' hdig
            cases hd'
            exact absurd hdig hd

theorem not_boundary_peek (st : Lexer) (h : st.is_boundary = false) :
    ∃ c, st.peek 0 = some c ∧ c ≠ '\n' := by
  cases hpk : st.peek 0 with
  | none => rw [Lexer.is_boundary, hpk] at h; simp at h
  | some c =>
    refine ⟨c, rfl, ?_⟩
    intro hc
    subst hc
    rw [Lexer.is_boundary, hpk] at h
    simp at h

theorem get_number_spec (fuel : Nat) (st : Lexer) (hinv : LexInv st)
    (hfuel : st.source.length - st.index < fuel) :
    (∃ t st', Lexer.get_number fuel st = .ok (t, st') ∧
      LexInv st' ∧ st'.source = st.source ∧ st'.filename = st.filename ∧
      st'.lines = st.lines ∧ st'.line = st.line ∧
      st.index ≤ st'.index ∧ st'.column = st.column + (st'.index - st.index) ∧
      t.line = st'.line ∧ t.column = st'.column ∧ t.index = st'.index ∧
      t.filename = st'.filename ∧ t.length = st'.index - st.index ∧
      ((∃ v, t.token_type = .Int v) ∨ (∃ s, t.token_type = .Float false s)) ∧
      (∀ d, st.peek 0 = some d → d.isDigit = true → st.index + 1 ≤ st'.index)) ∨
    (∃ e, Lexer.get_number fuel st = .err e ∧ 1 ≤ e.line ∧ 1 ≤ e.column) ∨
    Lexer.get_number fuel st = .abort .intOverflow := by
  rcases number_scan_spec fuel st [] false hinv hfuel with
    ⟨num, fl, st', g0, g1, g2, g3, g4, g5, g6, g7, g8, g9⟩ | ⟨e, g0, g1, g2⟩
  · simp only [List.length_nil, Nat.zero_add] at g8
    cases hb : st'.is_boundary with
    | false =>
      obtain ⟨c, hpkc, hne⟩ := not_boundary_peek st' hb
      have hpkc' : st'.source[st'.index]? = some c := by rw [← peek_zero]; exact hpkc
      obtain ⟨ctx, herr⟩ := error_spec st'
        ("Unexpected character in numeric literal: " ++ c.toString) g1
        ⟨st'.index, c, hpkc', hne, g1.2.2.2.1⟩
      have hred : Lexer.get_number fuel st
          = st'.error ("Unexpected character in numeric literal: " ++ c.toString) := by
        rw [Lexer.get_number, g0]
        simp only [hb, Bool.false_eq_true, if_false]
        rw [hpkc]
      rw [herr] at hred
      exact Or.inr (Or.inl ⟨_, hred, g1.2.1, g1.2.2.1⟩)
    | true =>
      cases fl with
      | true =>
        refine Or.inl ⟨st'.make_token (.Float false (String.mk num)) num.length, st', ?_,
          g1, g2, g3, g4, g5, g6, g7, rfl, rfl, rfl, rfl, by rw [g8]; rfl,
          Or.inr ⟨String.mk num, rfl⟩, g9⟩
        rw [Lexer.get_number, g0]
        simp [hb]
      | false =>
        cases hp : parse_i64 num with
        | some v =>
          refine Or.inl ⟨st'.make_token (.Int v) num.length, st', ?_,
            g1, g2, g3, g4, g5, g6, g7, rfl, rfl, rfl, rfl, by rw [g8]; rfl,
            Or.inl ⟨v, rfl⟩, g9⟩
          rw [Lexer.get_number, g0]
          simp [hb, hp]
        | none =>
          refine Or.inr (Or.inr ?_)
          rw [Lexer.get_number, g0]
          simp [hb, hp]
  · refine Or.inr (Or.inl ⟨e, ?_, g1, g2⟩)
    rw [Lexer.get_number, g0]

/-! ## The identifier scanner -/

theorem ident_scan_spec (fuel : Nat) : ∀ (st : Lexer) (ident : List Char),
    LexInv st → st.source.length - st.index < fuel →
    ∃ res st', Lexer.ident_scan fuel st ident = .ok (res, st') ∧
      LexInv st' ∧ st'.source = st.source ∧ st'.filename = st.filename ∧
      st'.lines = st.lines ∧ st'.line = st.line ∧
      st.index ≤ st'.index ∧ st'.column = st.column + (st'.index - st.index) ∧
      res.length = ident.length + (st'.index - st.index) ∧
      (∀ d, st.peek 0 = some d → (d.isAlphanum || d = '_') = true →
        st.index + 1 ≤ st'.index) := by
  induction fuel with
  | zero => intro st _ _ h; omega
  | succ f ih =>
    intro st ident hinv hfuel
    cases hpk : st.peek 0 with
    | none =>
      refine ⟨ident, st, ?_, hinv, rfl, rfl, rfl, rfl, le_refl _, by omega, by omega, ?_⟩
      · simp [Lexer.ident_scan, hpk]
      · intro d hd _; exact absurd hd (by simp)
    | some c =>
      have hpk' : st.source[st.index]? = some c := by rw [← peek_zero]; exact hpk
      have hadv := advance_some st c hpk'
      have hlt : st.index < st.source.length := (List.getElem?_eq_some.mp hpk').1
      by_cases hc : (c.isAlphanum || c = '_') = true
      · have heq : Lexer.ident_scan (f+1) st ident
            = Lexer.ident_scan f { st with index := st.index + 1, column := st.column + 1 }
                (ident ++ [c]) := by
          simp [Lexer.ident_scan, hpk, hc, hadv]
        rw [heq]
        obtain ⟨res, st', g0, g1, g2, g3, g4, g5, g6, g7, g8, _⟩ :=
          ih _ (ident ++ [c]) (lexinv_step st c hpk' hinv)
            (show st.source.length - (st.index + 1) < f by omega)
        have g6' : st.index + 1 ≤ st'.index := g6
        refine ⟨res, st', g0, g1, g2, g3, g4, g5, by omega, ?_, ?_, ?_⟩
        · have g7' : st'.column = st.column + 1 + (st'.index - (st.index + 1)) := g7
          omega
        · have : res.length = (ident ++ [c]).length + (st'.index - (st.index + 1)) := g8
          simp only [List.length_append, List.length_cons, List.length_nil] at this
          omega
        · intro _ _ _; omega
      · refine ⟨ident, st, ?_, hinv, rfl, rfl, rfl, rfl, le_refl _, by omega, by omega, ?_⟩
        · simp only [Bool.or_eq_true] at hc
          push_neg at hc
          simp [Lexer.ident_scan, hpk, hc.1, hc.2]
        · intro d hd' hcls
          cases hd'
          exact absurd hcls hc

theorem get_ident_spec (fuel : Nat) (st : Lexer) (hinv : LexInv st)
    (hfuel : st.source.length - st.index < fuel) :
    (∃ t st', Lexer.get_ident fuel st = .ok (t, st') ∧
      LexInv st' ∧ st'.source = st.source ∧ st'.filename = st.filename ∧
      st'.lines = st.lines ∧ st'.line = st.line ∧
      st.index ≤ st'.index ∧ st'.column = st.column + (st'.index - st.index) ∧
      t.line = st'.line ∧ t.column = st'.column ∧ t.index = st'.index ∧
      t.filename = st'.filename ∧ t.length = st'.index - st.index ∧
      (∀ v, t.token_type ≠ .String v) ∧ t.token_type ≠ .EOF ∧
      (∀ d, st.peek 0 = some d → (d.isAlphanum || d = '_') = true →
        st.index + 1 ≤ st'.index)) ∨
    (∃ e, Lexer.get_ident fuel st = .err e ∧ 1 ≤ e.line ∧ 1 ≤ e.column) := by
  obtain ⟨res, st', g0, g1, g2, g3, g4, g5, g6, g7, g8, g9⟩ :=
    ident_scan_spec fuel st [] hinv hfuel
  simp only [List.length_nil, Nat.zero_add] at g8
  cases hb : st'.is_boundary with
  | false =>
    obtain ⟨c, hpkc, hne⟩ := not_boundary_peek st' hb
    have hpkc' : st'.source[st'.index]? = some c := by rw [← peek_zero]; exact hpkc
    obtain ⟨ctx, herr⟩ := error_spec st'
      ("Unexpected character in identifier: " ++ c.toString) g1
      ⟨st'.index, c, hpkc', hne, g1.2.2.2.1⟩
    have hred : Lexer.get_ident fuel st
        = st'.error ("Unexpected character in identifier: " ++ c.toString) := by
      rw [Lexer.get_ident, g0]
      simp only [hb, Bool.false_eq_true, if_false]
      rw [hpkc]
    rw [herr] at hred
    exact Or.inr ⟨_, hred, g1.2.1, g1.2.2.1⟩
  | true =>
    by_cases h1 : String.mk res = "if"
    · have hlen : res.length = 2 := by
        have hd := congrArg String.data h1
        simp only at hd
        rw [hd]
        rfl
      refine Or.inl ⟨st'.make_token .KWIf 2, st', ?_, g1, g2, g3, g4, g5, g6, g7,
        rfl, rfl, rfl, rfl, by show 2 = st'.index - st.index; omega,
        by intro v h; exact TokenType.noConfusion h, by intro h; exact TokenType.noConfusion h, g9⟩
      rw [Lexer.get_ident, g0]
      simp [hb, h1]
    · by_cases h2 : String.mk res = "else"
      · have hlen : res.length = 4 := by
          have hd := congrArg String.data h2
          simp only at hd
          rw [hd]
          rfl
        refine Or.inl ⟨st'.make_token .KWElse 4, st', ?_, g1, g2, g3, g4, g5, g6, g7,
          rfl, rfl, rfl, rfl, by show 4 = st'.index - st.index; omega,
          by intro v h; exact TokenType.noConfusion h, by intro h; exact TokenType.noConfusion h, g9⟩
        rw [Lexer.get_ident, g0]
        simp [hb, h1, h2]
      · by_cases h3 : String.mk res = "for"
        · have hlen : res.length = 3 := by
            have hd := congrArg String.data h3
            simp only at hd
            rw [hd]
            rfl
          refine Or.inl ⟨st'.make_token .KWFor 3, st', ?_, g1, g2, g3, g4, g5, g6, g7,
            rfl, rfl, rfl, rfl, by show 3 = st'.index - st.index; omega,
            by intro v h; exact TokenType.noConfusion h, by intro h; exact TokenType.noConfusion h, g9⟩
          rw [Lexer.get_ident, g0]
          simp [hb, h1, h2, h3]
        · by_cases h4 : String.mk res = "return"
          · have hlen : res.length = 6 := by
              have hd := congrArg String.data h4
              simp only at hd
              rw [hd]
              rfl
            refine Or.inl ⟨st'.make_token .KWReturn 6, st', ?_, g1, g2, g3, g4, g5, g6, g7,
              rfl, rfl, rfl, rfl, by show 6 = st'.index - st.index; omega,
              by intro v h; exact TokenType.noConfusion h, by intro h; exact TokenType.noConfusion h, g9⟩
            rw [Lexer.get_ident, g0]
            simp [hb, h1, h2, h3, h4]
          · by_cases h5 : String.mk res = "break"
            · have hlen : res.length = 5 := by
                have hd := congrArg String.data h5
                simp only at hd
                rw [hd]
                rfl
              refine Or.inl ⟨st'.make_token .KWBreak 5, st', ?_, g1, g2, g3, g4, g5, g6, g7,
                rfl, rfl, rfl, rfl, by show 5 = st'.index - st.index; omega,
                by intro v h; exact TokenType.noConfusion h, by intro h; exact TokenType.noConfusion h, g9⟩
              rw [Lexer.get_ident, g0]
              simp [hb, h1, h2, h3, h4, h5]
            · by_cases h6 : String.mk res = "continue"
              · have hlen : res.length = 8 := by
                  have hd := congrArg String.data h6
                  simp only at hd
                  rw [hd]
                  rfl
                refine Or.inl ⟨st'.make_token .KWContinue 8, st', ?_, g1, g2, g3, g4, g5, g6, g7,
                  rfl, rfl, rfl, rfl, by show 8 = st'.index - st.index; omega,
                  by intro v h; exact TokenType.noConfusion h, by intro h; exact TokenType.noConfusion h, g9⟩
                rw [Lexer.get_ident, g0]
                simp [hb, h1, h2, h3, h4, h5, h6]
              · by_cases h7 : String.mk res = "in"
                · have hlen : res.length = 2 := by
                    have hd := congrArg String.data h7
                    simp only at hd
                    rw [hd]
                    rfl
                  refine Or.inl ⟨st'.make_token .KWIn 2, st', ?_, g1, g2, g3, g4, g5, g6, g7,
                    rfl, rfl, rfl, rfl, by show 2 = st'.index - st.index; omega,
                    by intro v h; exact TokenType.noConfusion h, by intro h; exact TokenType.noConfusion h, g9⟩
                  rw [Lexer.get_ident, g0]
                  simp [hb, h1, h2, h3, h4, h5, h6, h7]
                · by_cases h8 : String.mk res = "true"
                  · have hlen : res.length = 4 := by
                      have hd := congrArg String.data h8
                      simp only at hd
                      rw [hd]
                      rfl
                    refine Or.inl ⟨st'.make_token (.Bool true) 4, st', ?_, g1, g2, g3, g4, g5, g6, g7,
                      rfl, rfl, rfl, rfl, by show 4 = st'.index - st.index; omega,
                      by intro v h; exact TokenType.noConfusion h, by intro h; exact TokenType.noConfusion h, g9⟩
                    rw [Lexer.get_ident, g0]
                    simp [hb, h1, h2, h3, h4, h5, h6, h7, h8]
                  · by_cases h9 : String.mk res = "false"
                    · have hlen : res.length = 5 := by
                        have hd := congrArg String.data h9
                        simp only at hd
                        rw [hd]
                        rfl
                      refine Or.inl ⟨st'.make_token (.Bool false) 5, st', ?_, g1, g2, g3, g4, g5, g6, g7,
                        rfl, rfl, rfl, rfl, by show 5 = st'.index - st.index; omega,
                        by intro v h; exact TokenType.noConfusion h, by intro h; exact TokenType.noConfusion h, g9⟩
                      rw [Lexer.get_ident, g0]
                      simp [hb, h1, h2, h3, h4, h5, h6, h7, h8, h9]
                    · refine Or.inl ⟨st'.make_token (.Ident (String.mk res)) res.length, st', ?_,
                        g1, g2, g3, g4, g5, g6, g7,
                        rfl, rfl, rfl, rfl, by show res.length = st'.index - st.index; omega,
                        by intro v h; exact TokenType.noConfusion h, by intro h; exact TokenType.noConfusion h, g9⟩
                      rw [Lexer.get_ident, g0]
                      simp [hb, h1, h2, h3, h4, h5, h6, h7, h8, h9]

/-! ## Single- and two-character operator scanners -/

theorem get_single_spec (st : Lexer) (c : Char) (hinv : LexInv st)
    (hpk : st.peek 0 = some c) (hne : c ≠ '\n') :
    (∃ t st', Lexer.get_single st = .ok (t, st') ∧
      LexInv st' ∧ st'.source = st.source ∧ st'.filename = st.filename ∧
      st'.lines = st.lines ∧ st'.line = st.line ∧
      st'.index = st.index + 1 ∧ st'.column = st.column + 1 ∧
      t.line = st'.line ∧ t.column = st'.column ∧ t.index = st'.index ∧
      t.filename = st'.filename ∧ t.length = 1 ∧
      (∀ v, t.token_type ≠ .String v) ∧ t.token_type ≠ .EOF) ∨
    (∃ e, Lexer.get_single st = .err e ∧ 1 ≤ e.line ∧ 1 ≤ e.column) := by
  have hpk' : st.source[st.index]? = some c := by rw [← peek_zero]; exact hpk
  have hadv := advance_some st c hpk'
  have hinv' := lexinv_step st c hpk' hinv
  have key : (∃ tt, Lexer.get_single st
        = .ok (Lexer.make_token { st with index := st.index + 1, column := st.column + 1 } tt 1,
               { st with index := st.index + 1, column := st.column + 1 }) ∧
        (∀ v, tt ≠ TokenType.String v) ∧ tt ≠ TokenType.EOF) ∨
      Lexer.get_single st
        = Lexer.error { st with index := st.index + 1, column := st.column + 1 }
            ("Unexpected character: " ++ c.toString) := by
    rw [Lexer.get_single, hpk]
    split
    · next heq => exact Option.noConfusion heq
    · next c' heq =>
      injection heq with h
      subst h
      split
      all_goals first
        | exact Or.inl ⟨_, by rw [hadv],
            by intro v h; exact TokenType.noConfusion h,
            by intro h; exact TokenType.noConfusion h⟩
        | exact Or.inr (by rw [hadv])
  rcases key with ⟨tt, hok, hs, he⟩ | herr
  · exact Or.inl ⟨_, _, hok, hinv', rfl, rfl, rfl, rfl, rfl, rfl,
      rfl, rfl, rfl, rfl, rfl, hs, he⟩
  · obtain ⟨ctx, hred⟩ := error_spec _ ("Unexpected character: " ++ c.toString) hinv'
      ⟨st.index, c, hpk', hne, hinv.2.2.2.1⟩
    rw [hred] at herr
    exact Or.inr ⟨_, herr, hinv.2.1, by show 1 ≤ st.column + 1; omega⟩

set_option maxHeartbeats 2000000 in
theorem get_multi_spec (st : Lexer) (c : Char) (hinv : LexInv st)
    (hpk : st.peek 0 = some c) (hne : c ≠ '\n') :
    (∃ t st', Lexer.get_multi st = .ok (t, st') ∧
      LexInv st' ∧ st'.source = st.source ∧ st'.filename = st.filename ∧
      st'.lines = st.lines ∧ st'.line = st.line ∧
      st'.index = st.index + t.length ∧ st'.column = st.column + t.length ∧
      1 ≤ t.length ∧
      t.line = st'.line ∧ t.column = st'.column ∧ t.index = st'.index ∧
      t.filename = st'.filename ∧
      (∀ v, t.token_type ≠ .String v) ∧ t.token_type ≠ .EOF) ∨
    (∃ e, Lexer.get_multi st = .err e ∧ 1 ≤ e.line ∧ 1 ≤ e.column) := by
  have hpk' : st.source[st.index]? = some c := by rw [← peek_zero]; exact hpk
  have hadv := advance_some st c hpk'
  have hinv1 := lexinv_step st c hpk' hinv
  cases hpk1 : st.peek 1 with
  | none =>
    have hpk1' : st.source[st.index + 1]? = none := hpk1
    have hred : Lexer.get_multi st = Lexer.get_single st := by
      rw [Lexer.get_multi, hpk]
      split
      · next heq => exact Option.noConfusion heq
      · next c' heq =>
        injection heq with h
        subst h
        rw [hpk1]
    rw [hred]
    rcases get_single_spec st c hinv hpk hne with
      ⟨t, st', g0, g1, g2, g3, g4, g5, g6, g7, g8, g9, g10, g11, g12, g13, g14⟩ | h
    · exact Or.inl ⟨t, st', g0, g1, g2, g3, g4, g5, by omega, by omega, by omega,
        g8, g9, g10, g11, g13, g14⟩
    · exact Or.inr h
  | some c2 =>
    have hpk1' : st.source[st.index + 1]? = some c2 := hpk1
    have hadv2 : Lexer.advance { st with index := st.index + 1, column := st.column + 1 }
        = (some c2, { st with index := st.index + 2, column := st.column + 2 }) := by
      unfold Lexer.advance
      simp only []
      rw [hpk1']
    have hinv2 : LexInv { st with index := st.index + 2, column := st.column + 2 } := by
      have := lexinv_step { st with index := st.index + 1, column := st.column + 1 } c2 hpk1' hinv1
      exact this
    have hAA : ((st.advance).2.advance).2
        = { st with index := st.index + 2, column := st.column + 2 } := by
      rw [hadv]
      show (Lexer.advance { st with index := st.index + 1, column := st.column + 1 }).2 = _
      rw [hadv2]
    have key : (∃ tt, Lexer.get_multi st
          = .ok (Lexer.make_token { st with index := st.index + 2, column := st.column + 2 } tt 2,
                 { st with index := st.index + 2, column := st.column + 2 }) ∧
          (∀ v, tt ≠ TokenType.String v) ∧ tt ≠ TokenType.EOF) ∨
        Lexer.get_multi st = Lexer.get_single st := by
      rw [Lexer.get_multi, hpk]
      split
      · next heq => exact Option.noConfusion heq
      · next c' heq =>
        injection heq with h
        subst h
        rw [hpk1]
        split
        · next heq2 => exact Option.noConfusion heq2
        · next c2' heq2 =>
          injection heq2 with h2
          subst h2
          split
          all_goals first
            | exact Or.inl ⟨_, by rw [hAA],
                by intro v h; exact TokenType.noConfusion h,
                by intro h; exact TokenType.noConfusion h⟩
            | exact Or.inr rfl
    rcases key with ⟨tt, hok, hs, he⟩ | hfall
    · exact Or.inl ⟨_, _, hok, hinv2, rfl, rfl, rfl, rfl, rfl, rfl,
        by show (1:Nat) ≤ 2; omega, rfl, rfl, rfl, rfl, hs, he⟩
    · rw [hfall]
      rcases get_single_spec st c hinv hpk hne with
        ⟨t, st', g0, g1, g2, g3, g4, g5, g6, g7, g8, g9, g10, g11, g12, g13, g14⟩ | h
      · exact Or.inl ⟨t, st', g0, g1, g2, g3, g4, g5, by omega, by omega, by omega,
          g8, g9, g10, g11, g13, g14⟩
      · exact Or.inr h

/-! ## The string scanner -/

theorem string_scan_spec (fuel : Nat) : ∀ (st : Lexer) (value : List Char) (escape : Bool),
    LexInv st → SafeLine st → st.source.length - st.index < fuel →
    (∃ res st', Lexer.string_scan fuel st value escape = .ok (res, st') ∧
      LexInv st' ∧ st'.source = st.source ∧ st'.filename = st.filename ∧
      st'.lines = st.lines ∧ st'.line = st.line ∧
      st.index + 1 ≤ st'.index ∧ st'.column = st.column + (st'.index - st.index) ∧
      (∀ x ∈ res, x ∈ value ∨
        (∃ i, st.index ≤ i ∧ i < st'.index ∧ st.source[i]? = some x) ∨ x.toNat ≤ 127) ∧
      (escape = false → (∀ i, st.index ≤ i → i < st'.index → st.source[i]? ≠ some '\\') →
        res.length + 1 = value.length + (st'.index - st.index))) ∨
    (∃ e, Lexer.string_scan fuel st value escape = .err e ∧ 1 ≤ e.line ∧ 1 ≤ e.column) := by
  induction fuel with
  | zero => intro st _ _ _ _ h; omega
  | succ f ih =>
    intro st value escape hinv hsafe hfuel
    cases hpk : st.source[st.index]? with
    | none =>
      have hadv := advance_of_none st hpk
      obtain ⟨ctx, herr⟩ := error_spec st ("Unterminated string literal") hinv hsafe
      have hred : Lexer.string_scan (f+1) st value escape
          = Lexer.error st ("Unterminated string literal") := by
        simp [Lexer.string_scan, hadv]
      rw [herr] at hred
      exact Or.inr ⟨_, hred, hinv.2.1, hinv.2.2.1⟩
    | some c =>
      have hadv := advance_some st c hpk
      have hinvA := lexinv_step st c hpk hinv
      have hlt : st.index < st.source.length := (List.getElem?_eq_some.mp hpk).1
      have hsafeA : SafeLine { st with index := st.index + 1, column := st.column + 1 } := hsafe
      -- combining a recursive call that pushed one char `a`
      have combine : ∀ (a : Char) (res : List Char) (st' : Lexer),
          ((∃ i, st.index ≤ i ∧ i < st'.index ∧ st.source[i]? = some a) ∨ a.toNat ≤ 127) →
          (∀ x ∈ res, x ∈ value ++ [a] ∨
            (∃ i, st.index + 1 ≤ i ∧ i < st'.index ∧ st.source[i]? = some x) ∨
            x.toNat ≤ 127) →
          ∀ x ∈ res, x ∈ value ∨
            (∃ i, st.index ≤ i ∧ i < st'.index ∧ st.source[i]? = some x) ∨
            x.toNat ≤ 127 := by
        intro a res st' ha hall x hx
        rcases hall x hx with hxa | ⟨i, hi1, hi2, hi3⟩ | hxc
        · rw [List.mem_append] at hxa
          rcases hxa with hxv | hxa
          · exact Or.inl hxv
          · simp only [List.mem_singleton] at hxa
            subst hxa
            rcases ha with h | h
            · exact Or.inr (Or.inl h)
            · exact Or.inr (Or.inr h)
        · exact Or.inr (Or.inl ⟨i, by omega, hi2, hi3⟩)
        · exact Or.inr (Or.inr hxc)
      cases escape with
      | true =>
        have key : (∃ a, Lexer.string_scan (f+1) st value true
              = Lexer.string_scan f { st with index := st.index + 1, column := st.column + 1 }
                  (value ++ [a]) false ∧ a.toNat ≤ 127) ∨
            Lexer.string_scan (f+1) st value true
              = Lexer.error { st with index := st.index + 1, column := st.column + 1 }
                  ("Invalid escape sequence: \\" ++ c.toString) := by
          rw [Lexer.string_scan, hadv]
          dsimp only
          rw [if_pos rfl]
          split
          all_goals first
            | exact Or.inl ⟨_, rfl, by decide⟩
            | exact Or.inr rfl
        rcases key with ⟨a, heq, hasc⟩ | herr
        · rw [heq]
          rcases ih _ (value ++ [a]) false hinvA hsafeA
              (show st.source.length - (st.index + 1) < f by omega) with
            ⟨res, st', g0, g1, g2, g3, g4, g5, g6, g7, g8, _⟩ | ⟨e, g0, g1, g2⟩
          · have g6' : st.index + 2 ≤ st'.index := g6
            refine Or.inl ⟨res, st', g0, g1, g2, g3, g4, g5, by omega, ?_, ?_, ?_⟩
            · have g7' : st'.column = st.column + 1 + (st'.index - (st.index + 1)) := g7
              omega
            · exact combine a res st' (Or.inr hasc) g8
            · intro hf; exact absurd hf (by simp)
          · exact Or.inr ⟨e, g0, g1, g2⟩
        · obtain ⟨ctx, hred⟩ := error_spec _ ("Invalid escape sequence: \\" ++ c.toString)
            hinvA hsafeA
          rw [hred] at herr
          exact Or.inr ⟨_, herr, hinv.2.1, by show 1 ≤ st.column + 1; omega⟩
      | false =>
        by_cases hbs : c = '\\'
        · subst hbs
          have heq : Lexer.string_scan (f+1) st value false
              = Lexer.string_scan f { st with index := st.index + 1, column := st.column + 1 }
                  value true := by
            rw [Lexer.string_scan, hadv]
            dsimp only
            simp
          rw [heq]
          rcases ih _ value true hinvA hsafeA
              (show st.source.length - (st.index + 1) < f by omega) with
            ⟨res, st', g0, g1, g2, g3, g4, g5, g6, g7, g8, _⟩ | ⟨e, g0, g1, g2⟩
          · have g6' : st.index + 2 ≤ st'.index := g6
            refine Or.inl ⟨res, st', g0, g1, g2, g3, g4, g5, by omega, ?_, ?_, ?_⟩
            · have g7' : st'.column = st.column + 1 + (st'.index - (st.index + 1)) := g7
              omega
            · intro x hx
              rcases g8 x hx with h | ⟨i, hi1, hi2, hi3⟩ | h
              · exact Or.inl h
              · have hi1' : st.index + 1 ≤ i := hi1
                exact Or.inr (Or.inl ⟨i, by omega, hi2, hi3⟩)
              · exact Or.inr (Or.inr h)
            · intro _ hnb
              exact absurd hpk (hnb st.index (le_refl _) (by omega))
          · exact Or.inr ⟨e, g0, g1, g2⟩
        · by_cases hq : c = '"'
          · subst hq
            have heq : Lexer.string_scan (f+1) st value false
                = .ok (value, { st with index := st.index + 1, column := st.column + 1 }) := by
              rw [Lexer.string_scan, hadv]
              dsimp only
              simp [hbs]
            refine Or.inl ⟨value, _, heq, hinvA, rfl, rfl, rfl, rfl, le_refl _, ?_, ?_, ?_⟩
            · show st.column + 1 = st.column + (st.index + 1 - st.index)
              omega
            · intro x hx; exact Or.inl hx
            · intro _ _
              show value.length + 1 = value.length + (st.index + 1 - st.index)
              omega
          · have heq : Lexer.string_scan (f+1) st value false
                = Lexer.string_scan f { st with index := st.index + 1, column := st.column + 1 }
                    (value ++ [c]) false := by
              rw [Lexer.string_scan, hadv]
              simp [hbs, hq]
            rw [heq]
            rcases ih _ (value ++ [c]) false hinvA hsafeA
                (show st.source.length - (st.index + 1) < f by omega) with
              ⟨res, st', g0, g1, g2, g3, g4, g5, g6, g7, g8, g9⟩ | ⟨e, g0, g1, g2⟩
            · have g6' : st.index + 2 ≤ st'.index := g6
              refine Or.inl ⟨res, st', g0, g1, g2, g3, g4, g5, by omega, ?_,
                combine c res st' (Or.inl ⟨st.index, le_refl _, by omega, hpk⟩) g8, ?_⟩
              · have g7' : st'.column = st.column + 1 + (st'.index - (st.index + 1)) := g7
                omega
              · intro _ hnb
                have hnb' : ∀ i, st.index + 1 ≤ i → i < st'.index →
                    st.source[i]? ≠ some '\\' := fun i hi1 hi2 => hnb i (by omega) hi2
                have h9 := g9 rfl hnb'
                simp only [List.length_append, List.length_cons, List.length_nil] at h9
                omega
            · exact Or.inr ⟨e, g0, g1, g2⟩

theorem error_ne_ok {α : Type} (st : Lexer) (msg : String) (x : α) :
    Lexer.error st msg ≠ .ok x := by
  unfold Lexer.error
  split <;> simp

theorem advance_line (st : Lexer) : ((st.advance).2).line = st.line := by
  unfold Lexer.advance
  split <;> rfl

/-- The string loop never touches the line counter: a raw line feed inside
a string literal is consumed by `advance`, which only moves `index` and
`column`. -/
theorem string_scan_line (fuel : Nat) : ∀ (st : Lexer) (value : List Char) (escape : Bool)
    (res : List Char) (st' : Lexer),
    Lexer.string_scan fuel st value escape = .ok (res, st') → st'.line = st.line := by
  induction fuel with
  | zero => intro st value escape res st' h; exact absurd h (by simp [Lexer.string_scan])
  | succ f ih =>
    intro st value escape res st' h
    cases hpk : st.source[st.index]? with
    | none =>
      rw [Lexer.string_scan, advance_of_none st hpk] at h
      exact absurd h (error_ne_ok st ("Unterminated string literal") _)
    | some c =>
      rw [Lexer.string_scan, advance_some st c hpk] at h
      dsimp only at h
      cases escape with
      | true =>
        rw [if_pos rfl] at h
        have hline : ∀ (v2 : List Char),
            Lexer.string_scan f { st with index := st.index + 1, column := st.column + 1 }
              v2 false = .ok (res, st') → st'.line = st.line := by
          intro v2 hh
          have := ih { st with index := st.index + 1, column := st.column + 1 }
            v2 false res st' hh
          exact this
        split at h
        · exact hline _ h
        · exact hline _ h
        · exact hline _ h
        · exact hline _ h
        · exact hline _ h
        · exact hline _ h
        · exact hline _ h
        · exact absurd h (error_ne_ok _ _ _)
      | false =>
        rw [if_neg (by simp)] at h
        by_cases hbs : c = '\\'
        · rw [if_pos hbs] at h
          have := ih { st with index := st.index + 1, column := st.column + 1 }
            value true res st' h
          exact this
        · rw [if_neg hbs] at h
          by_cases hq : c = '"'
          · rw [if_pos hq] at h
            injection h with h
            injection h with h1 h2
            rw [← h2]
          · rw [if_neg hq] at h
            have := ih { st with index := st.index + 1, column := st.column + 1 }
              (value ++ [c]) false res st' h
            exact this

theorem get_string_line (fuel : Nat) (st : Lexer) (t : Token) (st' : Lexer)
    (h : Lexer.get_string fuel st = .ok (t, st')) :
    st'.line = st.line ∧ t.line = st'.line := by
  unfold Lexer.get_string at h
  dsimp only at h
  cases hs : Lexer.string_scan fuel (st.advance).2 [] false with
  | ok p =>
    rw [hs] at h
    dsimp only at h
    injection h with h
    injection h with h1 h2
    have := string_scan_line fuel (st.advance).2 [] false p.1 p.2 (by rw [hs])
    constructor
    · rw [← h2]
      rw [this, advance_line]
    · rw [← h1, ← h2]
      rfl
  | err e => rw [hs] at h; exact absurd h (by simp)
  | abort k => rw [hs] at h; exact absurd h (by simp)
  | outOfFuel => rw [hs] at h; exact absurd h (by simp)

theorem get_string_spec (fuel : Nat) (st : Lexer) (c0 : Char) (hinv : LexInv st)
    (hpk : st.peek 0 = some c0) (hne : c0 ≠ '\n')
    (hfuel : st.source.length - st.index < fuel) :
    (∃ t st' v, Lexer.get_string fuel st = .ok (t, st') ∧
      LexInv st' ∧ st'.source = st.source ∧ st'.filename = st.filename ∧
      st'.lines = st.lines ∧ st'.line = st.line ∧
      st.index + 2 ≤ st'.index ∧ st'.column = st.column + (st'.index - st.index) ∧
      t.line = st'.line ∧ t.column = st'.column ∧ t.index = st'.index ∧
      t.filename = st'.filename ∧
      t.token_type = TokenType.String v ∧ t.length = utf8_len v.data + 2 ∧
      (∀ x ∈ v.data, (∃ i, st.index ≤ i ∧ i < st'.index ∧ st.source[i]? = some x) ∨
        x.toNat ≤ 127) ∧
      ((∀ i, st.index ≤ i → i < st'.index → st.source[i]? ≠ some '\\') →
        v.length + 2 = st'.index - st.index)) ∨
    (∃ e, Lexer.get_string fuel st = .err e ∧ 1 ≤ e.line ∧ 1 ≤ e.column) := by
  have hpk' : st.source[st.index]? = some c0 := by rw [← peek_zero]; exact hpk
  have hadv := advance_some st c0 hpk'
  have hinvA := lexinv_step st c0 hpk' hinv
  have hlt : st.index < st.source.length := (List.getElem?_eq_some.mp hpk').1
  have hsafeA : SafeLine { st with index := st.index + 1, column := st.column + 1 } :=
    ⟨st.index, c0, hpk', hne, hinv.2.2.2.1⟩
  rcases string_scan_spec fuel _ [] false hinvA hsafeA
      (show st.source.length - (st.index + 1) < fuel by omega) with
    ⟨res, st', g0, g1, g2, g3, g4, g5, g6, g7, g8, g9⟩ | ⟨e, g0, g1, g2⟩
  · have hred : Lexer.get_string fuel st
        = .ok (st'.make_token (TokenType.String (String.mk res)) (utf8_len res + 2), st') := by
      unfold Lexer.get_string
      rw [hadv]
      dsimp only
      rw [g0]
    have g5' : st'.line = st.line := by rw [g5]
    have g6' : st.index + 2 ≤ st'.index := g6
    have g7' : st'.column = st.column + 1 + (st'.index - (st.index + 1)) := g7
    refine Or.inl ⟨_, st', String.mk res, hred, g1, g2, g3, g4, g5', by omega, by omega,
      rfl, rfl, rfl, rfl, rfl, rfl, ?_, ?_⟩
    · intro x hx
      rcases g8 x hx with h | ⟨i, hi1, hi2, hi3⟩ | h
      · exact absurd h (by simp)
      · have hi1' : st.index + 1 ≤ i := hi1
        exact Or.inl ⟨i, by omega, hi2, hi3⟩
      · exact Or.inr h
    · intro hnb
      have hnb' : ∀ i, st.index + 1 ≤ i → i < st'.index → st.source[i]? ≠ some '\\' :=
        fun i hi1 hi2 => hnb i (by omega) hi2
      have h9 := g9 rfl hnb'
      simp only [List.length_nil, Nat.zero_add] at h9
      show res.length + 2 = st'.index - st.index
      omega
  · refine Or.inr ⟨e, ?_, g1, g2⟩
    unfold Lexer.get_string
    rw [hadv]
    dsimp only
    rw [g0]

/-! ## The dispatcher -/

set_option maxHeartbeats 2000000 in
theorem get_token_spec (fuel : Nat) (st : Lexer) (hinv : LexInv st)
    (hfuel : st.source.length - st.index < fuel) :
    (∃ t st', Lexer.get_token fuel st = .ok (t, st') ∧
      LexInv st' ∧ st'.source = st.source ∧ st'.filename = st.filename ∧
      st'.lines = st.lines ∧
      t.line = st'.line ∧ t.column = st'.column ∧ t.index = st'.index ∧
      st.index ≤ st'.index ∧
      (t.token_type = .EOF → st'.is_end = true ∧ t.length = 0) ∧
      (t.token_type ≠ .EOF → st.index < st'.index) ∧
      (∀ v, t.token_type = .String v → t.length = utf8_len v.data + 2 ∧
        (∀ x ∈ v.data, x ∈ st.source ∨ x.toNat ≤ 127)) ∧
      ∃ stw, Lexer.skip_whitespace fuel st = .ok stw ∧
        (t.token_type ≠ .EOF →
         ¬ (stw.peek 0 = some '-' ∧ ∃ d, stw.peek 1 = some d ∧ d.isDigit = true) →
         (∀ i x, stw.index ≤ i → i < st'.index → st.source[i]? = some x →
           x ≠ '\\' ∧ x.toNat ≤ 127) →
         t.column = stw.column + t.length)) ∨
    (∃ e, Lexer.get_token fuel st = .err e ∧ 1 ≤ e.line ∧ 1 ≤ e.column) ∨
    Lexer.get_token fuel st = .abort .intOverflow ∨
    Lexer.get_token fuel st = .abort .peekNone := by
  obtain ⟨stw, w0, w1, w2, w3, w4, w5, w6⟩ := skip_whitespace_spec fuel st hinv hfuel
  have hwidx : stw.index ≤ st.source.length := by
    have := w1.1
    rw [w2] at this
    exact this
  rw [Lexer.get_token, w0]
  dsimp only
  cases hend : stw.is_end with
  | true =>
    rw [if_pos rfl]
    refine Or.inl ⟨_, stw, rfl, w1, w2, w3, w4, rfl, rfl, rfl, w5, ?_, ?_, ?_, ?_⟩
    · intro _
      exact ⟨hend, rfl⟩
    · intro hne
      exact absurd rfl hne
    · intro v hv
      exact absurd hv (by intro h; exact TokenType.noConfusion h)
    · exact ⟨stw, rfl, fun hne _ _ => absurd rfl hne⟩
  | false =>
    simp only [Bool.false_eq_true, if_false]
    cases hpkw : stw.peek 0 with
    | none =>
      dsimp only
      exact Or.inr (Or.inr (Or.inr rfl))
    | some c =>
      have hnws : is_ws c = false := by
        rcases w6 with h | ⟨c2, hc2, hw⟩
        · rw [hpkw] at h; exact absurd h (by simp)
        · rw [hpkw] at hc2; injection hc2 with h; rw [h]; exact hw
      have hcnl : c ≠ '\n' := by
        intro h
        subst h
        simp [is_ws] at hnws
      have hpkw' : stw.source[stw.index]? = some c := by rw [← peek_zero]; exact hpkw
      have hladv := advance_some stw c hpkw'
      have hlinvA := lexinv_step stw c hpkw' w1
      have hltw : stw.index < st.source.length := by
        have := (List.getElem?_eq_some.mp hpkw').1
        rw [w2] at this
        exact this
      have hwfuel : stw.source.length - stw.index < fuel := by
        rw [w2]
        omega
      have hgm : (∃ t st', stw.get_multi = .ok (t, st') ∧
            LexInv st' ∧ st'.source = st.source ∧ st'.filename = st.filename ∧
            st'.lines = st.lines ∧
            t.line = st'.line ∧ t.column = st'.column ∧ t.index = st'.index ∧
            st.index ≤ st'.index ∧
            (t.token_type = .EOF → st'.is_end = true ∧ t.length = 0) ∧
            (t.token_type ≠ .EOF → st.index < st'.index) ∧
            (∀ v, t.token_type = .String v → t.length = utf8_len v.data + 2 ∧
              (∀ x ∈ v.data, x ∈ st.source ∨ x.toNat ≤ 127)) ∧
            ∃ stw2, Lexer.skip_whitespace fuel st = .ok stw2 ∧
              (t.token_type ≠ .EOF →
               ¬ (stw2.peek 0 = some '-' ∧ ∃ d, stw2.peek 1 = some d ∧ d.isDigit = true) →
               (∀ i x, stw2.index ≤ i → i < st'.index → st.source[i]? = some x →
                 x ≠ '\\' ∧ x.toNat ≤ 127) →
               t.column = stw2.column + t.length)) ∨
          (∃ e, stw.get_multi = .err e ∧ 1 ≤ e.line ∧ 1 ≤ e.column) ∨
          stw.get_multi = .abort .intOverflow ∨
          stw.get_multi = .abort .peekNone := by
        rcases get_multi_spec stw c w1 hpkw hcnl with
          ⟨t, st', g0, g1, g2, g3, g4, g5, g6, g7, g8, g9, g10, g11, g12, g13, g14⟩ |
          ⟨e, g0, g1, g2⟩
        · have g2' : st'.source = st.source := by rw [g2]; exact w2
          have g3' : st'.filename = st.filename := by rw [g3]; exact w3
          have g4' : st'.lines = st.lines := by rw [g4]; exact w4
          refine Or.inl ⟨t, st', g0, g1, g2', g3', g4', g9, g10, g11, by omega,
            ?_, ?_, ?_, ?_⟩
          · intro hEOF
            exact absurd hEOF g14
          · intro _
            omega
          · intro v hv
            exact absurd hv (g13 v)
          · refine ⟨stw, w0, fun _ _ _ => ?_⟩
            rw [g10, g7]
        · exact Or.inr (Or.inl ⟨e, g0, g1, g2⟩)
      rw [w0] at hgm
      dsimp only
      split
      · -- '-'
        cases hpk1 : stw.peek 1 with
        | some d =>
          dsimp only
          by_cases hd : d.isDigit
          · rw [if_pos hd, hladv]
            dsimp only
            have hsl : stw.source.length = st.source.length := by rw [w2]
            rcases get_number_spec fuel
                { stw with index := stw.index + 1, column := stw.column + 1 } hlinvA
                (show ({ stw with index := stw.index + 1, column := stw.column + 1
                    : Lexer}).source.length -
                  ({ stw with index := stw.index + 1, column := stw.column + 1 : Lexer}).index
                  < fuel by
                    show stw.source.length - (stw.index + 1) < fuel
                    omega) with
              ⟨t, st', g0, g1, g2, g3, g4, g5, g6, g7, g8, g9, g10, g11, g12, g13, g14⟩ |
              ⟨e, g0, g1, g2⟩ | g0
            · rw [g0]
              have g6' : stw.index + 1 ≤ st'.index := g6
              have g2' : st'.source = st.source := by rw [g2]; exact w2
              have g3' : st'.filename = st.filename := by rw [g3]; exact w3
              have g4' : st'.lines = st.lines := by rw [g4]; exact w4
              refine Or.inl ⟨_, st', rfl, g1, g2', g3', g4', g8, g9, g10, by omega,
                ?_, ?_, ?_, ?_⟩
              · intro hEOF
                exfalso
                rcases g13 with ⟨v, hv⟩ | ⟨s, hs⟩
                · rw [show ({ t with token_type := Lexer.negate_token t.token_type
                      : Token}).token_type = Lexer.negate_token t.token_type from rfl, hv]
                      at hEOF
                  simp [Lexer.negate_token] at hEOF
                · rw [show ({ t with token_type := Lexer.negate_token t.token_type
                      : Token}).token_type = Lexer.negate_token t.token_type from rfl, hs]
                      at hEOF
                  simp [Lexer.negate_token] at hEOF
              · intro _
                omega
              · intro v hv
                exfalso
                rcases g13 with ⟨v2, hv2⟩ | ⟨s, hs⟩
                · rw [show ({ t with token_type := Lexer.negate_token t.token_type
                      : Token}).token_type = Lexer.negate_token t.token_type from rfl, hv2]
                      at hv
                  simp [Lexer.negate_token] at hv
                · rw [show ({ t with token_type := Lexer.negate_token t.token_type
                      : Token}).token_type = Lexer.negate_token t.token_type from rfl, hs]
                      at hv
                  simp [Lexer.negate_token] at hv
              · exact ⟨stw, rfl, fun _ hnf _ => absurd ⟨hpkw, d, hpk1, hd⟩ hnf⟩
            · rw [g0]
              exact Or.inr (Or.inl ⟨e, rfl, g1, g2⟩)
            · rw [g0]
              exact Or.inr (Or.inr (Or.inl rfl))
          · rw [if_neg hd, hladv]
            dsimp only
            refine Or.inl ⟨_, _, rfl, hlinvA, w2, w3, w4, rfl, rfl, rfl,
              by show st.index ≤ stw.index + 1; omega, ?_, ?_, ?_, ?_⟩
            · intro hEOF
              exact absurd hEOF (by intro h; exact TokenType.noConfusion h)
            · intro _
              show st.index < stw.index + 1
              omega
            · intro v hv
              exact absurd hv (by intro h; exact TokenType.noConfusion h)
            · refine ⟨stw, rfl, fun _ _ _ => ?_⟩
              show stw.column + 1 = stw.column + 1
              rfl
        | none =>
          dsimp only
          rw [hladv]
          dsimp only
          refine Or.inl ⟨_, _, rfl, hlinvA, w2, w3, w4, rfl, rfl, rfl,
            by show st.index ≤ stw.index + 1; omega, ?_, ?_, ?_, ?_⟩
          · intro hEOF
            exact absurd hEOF (by intro h; exact TokenType.noConfusion h)
          · intro _
            show st.index < stw.index + 1
            omega
          · intro v hv
            exact absurd hv (by intro h; exact TokenType.noConfusion h)
          · refine ⟨stw, rfl, fun _ _ _ => ?_⟩
            show stw.column + 1 = stw.column + 1
            rfl
      all_goals try exact hgm
      -- default: digits, letters, quote, or an error
      by_cases hdig : c.isDigit
      · rw [if_pos hdig]
        rcases get_number_spec fuel stw w1 hwfuel with
          ⟨t, st', g0, g1, g2, g3, g4, g5, g6, g7, g8, g9, g10, g11, g12, g13, g14⟩ |
          ⟨e, g0, g1, g2⟩ | g0
        · rw [g0]
          have g2' : st'.source = st.source := by rw [g2]; exact w2
          have g3' : st'.filename = st.filename := by rw [g3]; exact w3
          have g4' : st'.lines = st.lines := by rw [g4]; exact w4
          have hprog := g14 c hpkw hdig
          refine Or.inl ⟨t, st', rfl, g1, g2', g3', g4', g8, g9, g10, by omega,
            ?_, ?_, ?_, ?_⟩
          · intro hEOF
            exfalso
            rcases g13 with ⟨v, hv⟩ | ⟨s, hs⟩
            · rw [hv] at hEOF; exact TokenType.noConfusion hEOF
            · rw [hs] at hEOF; exact TokenType.noConfusion hEOF
          · intro _
            omega
          · intro v hv
            exfalso
            rcases g13 with ⟨v2, hv2⟩ | ⟨s, hs⟩
            · rw [hv2] at hv; exact TokenType.noConfusion hv
            · rw [hs] at hv; exact TokenType.noConfusion hv
          · refine ⟨stw, rfl, fun _ _ _ => ?_⟩
            rw [g9, g7, g12]
        · rw [g0]
          exact Or.inr (Or.inl ⟨e, rfl, g1, g2⟩)
        · rw [g0]
          exact Or.inr (Or.inr (Or.inl rfl))
      · rw [if_neg hdig]
        by_cases halph : c.isAlpha
        · rw [if_pos halph]
          rcases get_ident_spec fuel stw w1 hwfuel with
            ⟨t, st', g0, g1, g2, g3, g4, g5, g6, g7, g8, g9, g10, g11, g12, g13, g14, g15⟩ |
            ⟨e, g0, g1, g2⟩
          · rw [g0]
            have g2' : st'.source = st.source := by rw [g2]; exact w2
            have g3' : st'.filename = st.filename := by rw [g3]; exact w3
            have g4' : st'.lines = st.lines := by rw [g4]; exact w4
            have hprog := g15 c hpkw (by rw [Char.isAlphanum, halph]; rfl)
            refine Or.inl ⟨t, st', rfl, g1, g2', g3', g4', g8, g9, g10, by omega,
              ?_, ?_, ?_, ?_⟩
            · intro hEOF
              exact absurd hEOF g14
            · intro _
              omega
            · intro v hv
              exact absurd hv (g13 v)
            · refine ⟨stw, rfl, fun _ _ _ => ?_⟩
              rw [g9, g7, g12]
          · rw [g0]
            exact Or.inr (Or.inl ⟨e, rfl, g1, g2⟩)
        · rw [if_neg halph]
          by_cases hquo : c = '"'
          · rw [if_pos hquo]
            subst hquo
            rcases get_string_spec fuel stw '"' w1 hpkw hcnl hwfuel with
              ⟨t, st', v, g0, g1, g2, g3, g4, g5, g6, g7, g8, g9, g10, g11, g12, g13, g14, g15⟩ |
              ⟨e, g0, g1, g2⟩
            · rw [g0]
              have g2' : st'.source = st.source := by rw [g2]; exact w2
              have g3' : st'.filename = st.filename := by rw [g3]; exact w3
              have g4' : st'.lines = st.lines := by rw [g4]; exact w4
              refine Or.inl ⟨t, st', rfl, g1, g2', g3', g4', g8, g9, g10, by omega,
                ?_, ?_, ?_, ?_⟩
              · intro hEOF
                rw [g12] at hEOF
                exact absurd hEOF (by intro h; exact TokenType.noConfusion h)
              · intro _
                omega
              · intro v2 hv2
                rw [g12] at hv2
                injection hv2 with hv2
                subst hv2
                refine ⟨g13, ?_⟩
                intro x hx
                rcases g14 x hx with ⟨i, hi1, hi2, hi3⟩ | h
                · rw [w2] at hi3
                  exact Or.inl (List.getElem?_mem hi3)
                · exact Or.inr h
              · refine ⟨stw, rfl, fun _ _ hspan => ?_⟩
                have hnb : ∀ i, stw.index ≤ i → i < st'.index →
                    stw.source[i]? ≠ some '\\' := by
                  intro i h1 h2 hx
                  rw [w2] at hx
                  exact (hspan i '\\' h1 h2 hx).1 rfl
                have hlen := g15 hnb
                have hascii : ∀ x ∈ v.data, x.toNat ≤ 127 := by
                  intro x hx
                  rcases g14 x hx with ⟨i, hi1, hi2, hi3⟩ | h
                  · rw [w2] at hi3
                    exact (hspan i x hi1 hi2 hi3).2
                  · exact h
                have hu : utf8_len v.data = v.data.length := utf8_len_of_ascii _ hascii
                have hvl : v.length = v.data.length := rfl
                have g6' : stw.index + 2 ≤ st'.index := g6
                rw [g9, g7, g13, hu]
                omega
            · rw [g0]
              exact Or.inr (Or.inl ⟨e, rfl, g1, g2⟩)
          · rw [if_neg hquo]
            obtain ⟨ctx, herr⟩ := error_spec stw ("Unexpected character: " ++ c.toString) w1
              ⟨stw.index, c, hpkw', hcnl, w1.2.2.2.1⟩
            rw [herr]
            exact Or.inr (Or.inl ⟨_, rfl, w1.2.1, w1.2.2.1⟩)

/-! ## The top-level scanning loop -/

theorem tokenise_loop_spec (fuel : Nat) : ∀ (st : Lexer), LexInv st →
    st.source.length - st.index < fuel →
    (∃ ts, Lexer.tokenise_loop fuel st = .ok ts ∧
      utf8_len st.source ≤ st.source.length ∧
      ∀ t ∈ ts, t.token_type ≠ .EOF ∧
        (∀ v, t.token_type = .String v → t.length = utf8_len v.data + 2 ∧
          ∀ x ∈ v.data, x ∈ st.source ∨ x.toNat ≤ 127)) ∨
    (∃ e, Lexer.tokenise_loop fuel st = .err e ∧ 1 ≤ e.line ∧ 1 ≤ e.column) ∨
    Lexer.tokenise_loop fuel st = .abort .intOverflow ∨
    Lexer.tokenise_loop fuel st = .abort .peekNone := by
  induction fuel with
  | zero => intro st _ h; omega
  | succ f ih =>
    intro st hinv hfuel
    rcases get_token_spec (f+1) st hinv hfuel with
      ⟨t, st', g0, g1, g2, g3, g4, g5, g6, g7, g8, g9, g10, g11, _⟩ |
      ⟨e, g0, g1, g2⟩ | g0 | g0
    · rw [Lexer.tokenise_loop, g0]
      dsimp only
      by_cases hEOF : t.token_type = TokenType.EOF
      · rw [if_pos hEOF]
        obtain ⟨hend, _⟩ := g9 hEOF
        have : utf8_len st'.source ≤ st'.index := by
          have := of_decide_eq_true hend
          exact this
        refine Or.inl ⟨[], rfl, ?_, by simp⟩
        rw [g2] at this
        have := g1.1
        rw [g2] at this
        omega
      · rw [if_neg hEOF]
        have hlt := g10 hEOF
        have hle : st'.index ≤ st.source.length := by
          have := g1.1
          rw [g2] at this
          exact this
        have hfuel' : st'.source.length - st'.index < f := by
          rw [g2]
          omega
        rcases ih st' g1 hfuel' with
          ⟨ts, r0, r1, r2⟩ | ⟨e, r0, r1, r2⟩ | r0 | r0
        · rw [r0]
          refine Or.inl ⟨t :: ts, rfl, by rw [g2] at r1; exact r1, ?_⟩
          intro t2 ht2
          rw [List.mem_cons] at ht2
          rcases ht2 with rfl | ht2
          · exact ⟨hEOF, g11⟩
          · obtain ⟨s1, s2⟩ := r2 t2 ht2
            refine ⟨s1, ?_⟩
            intro v hv
            obtain ⟨u1, u2⟩ := s2 v hv
            refine ⟨u1, ?_⟩
            intro x hx
            rcases u2 x hx with h | h
            · rw [g2] at h
              exact Or.inl h
            · exact Or.inr h
        · rw [r0]
          exact Or.inr (Or.inl ⟨e, rfl, r1, r2⟩)
        · rw [r0]
          exact Or.inr (Or.inr (Or.inl rfl))
        · rw [r0]
          exact Or.inr (Or.inr (Or.inr rfl))
    · rw [Lexer.tokenise_loop, g0]
      exact Or.inr (Or.inl ⟨e, rfl, g1, g2⟩)
    · rw [Lexer.tokenise_loop, g0]
      exact Or.inr (Or.inr (Or.inl rfl))
    · rw [Lexer.tokenise_loop, g0]
      exact Or.inr (Or.inr (Or.inr rfl))

/-- Full classification of `tokenise` on any filename and source text:
it terminates with a token list, a tokenisation error whose position
cannot underflow the formatter's subtractions, or one of the two aborts
that really are reachable (integer-literal overflow, and the char/byte
cursor confusion after a multi-byte char inside a string literal). -/
theorem tokenise_spec (fn src : String) :
    (∃ ts, (Lexer.new fn src).tokenise = .ok ts ∧
      utf8_len src.data ≤ src.data.length ∧
      ∀ t ∈ ts, t.token_type ≠ .EOF ∧
        (∀ v, t.token_type = .String v → t.length = utf8_len v.data + 2 ∧
          ∀ x ∈ v.data, x ∈ src.data ∨ x.toNat ≤ 127)) ∨
    (∃ e, (Lexer.new fn src).tokenise = .err e ∧ 1 ≤ e.line ∧ 1 ≤ e.column) ∨
    (Lexer.new fn src).tokenise = .abort .intOverflow ∨
    (Lexer.new fn src).tokenise = .abort .peekNone := by
  have h := tokenise_loop_spec ((Lexer.new fn src).source.length + 1) (Lexer.new fn src)
    (lexinv_new fn src) (by simp [Lexer.new])
  rcases h with ⟨ts, r0, r1, r2⟩ | ⟨e, r0, r1, r2⟩ | r0 | r0
  · exact Or.inl ⟨ts, r0, r1, r2⟩
  · exact Or.inr (Or.inl ⟨e, r0, r1, r2⟩)
  · exact Or.inr (Or.inr (Or.inl r0))
  · exact Or.inr (Or.inr (Or.inr r0))

/-! ## Claims -/

/-- C1: the claim says a digit run whose value exceeds the 64-bit range
yields a dedicated `NumericLiteralOverflow` tokenisation error instead of
aborting the process.  The code calls `number.parse::<i64>().unwrap()`,
so on this twenty-digit literal it aborts (panics) instead of returning
an error: the claim states the spec's intent and the code violates it. -/
theorem claim_C1 :
    (Lexer.new ("f") ("99999999999999999999")).tokenise = .abort .intOverflow := by
  rfl

/-- C2 counterexample: the claim says tokenising any Unicode input
(non-ASCII included) terminates with a token sequence or an error and no
abort is reachable.  On the three-char source quote, e-acute, quote, the
string scanner consumes the two-byte char, `is_end` then compares the
char cursor 3 with the byte length 4, and `peek(0).unwrap()` aborts. -/
theorem claim_C2_counterexample :
    (Lexer.new ("f") ("\"é\"")).tokenise = .abort .peekNone := by
  rfl

/-- C2 (amended): tokenise always terminates, returning a complete token
sequence or a `TokenisationError`, except that two aborts are reachable:
integer-literal overflow (the `parse().unwrap()`), and the char-cursor /
byte-length confusion in `is_end` after a string literal containing a
multi-byte character.  No other outcome (in particular no fuel
exhaustion and no out-of-range line-table access) is possible. -/
theorem claim_C2 (fn src : String) :
    (∃ ts, (Lexer.new fn src).tokenise = .ok ts) ∨
    (∃ e, (Lexer.new fn src).tokenise = .err e) ∨
    (Lexer.new fn src).tokenise = .abort .intOverflow ∨
    (Lexer.new fn src).tokenise = .abort .peekNone := by
  rcases tokenise_spec fn src with ⟨ts, r0, _⟩ | ⟨e, r0, _⟩ | r0 | r0
  · exact Or.inl ⟨ts, r0⟩
  · exact Or.inr (Or.inl ⟨e, r0⟩)
  · exact Or.inr (Or.inr (Or.inl r0))
  · exact Or.inr (Or.inr (Or.inr r0))

/-- C5: greedy longest-match operator disambiguation.  Each two-character
operator string tokenises to exactly one token of the corresponding
kind, and the three-character string of three equals signs tokenises to
`OpEq` followed by `OpAssign`. -/
theorem claim_C5 :
    (Lexer.new ("f") ("**")).tokenise
      = .ok [{ token_type := .OpPow, line := 1, column := 3, index := 2
               filename := "f", length := 2 }] ∧
    (Lexer.new ("f") ("==")).tokenise
      = .ok [{ token_type := .OpEq, line := 1, column := 3, index := 2
               filename := "f", length := 2 }] ∧
    (Lexer.new ("f") (">=")).tokenise
      = .ok [{ token_type := .OpGe, line := 1, column := 3, index := 2
               filename := "f", length := 2 }] ∧
    (Lexer.new ("f") ("<=")).tokenise
      = .ok [{ token_type := .OpLe, line := 1, column := 3, index := 2
               filename := "f", length := 2 }] ∧
    (Lexer.new ("f") ("!=")).tokenise
      = .ok [{ token_type := .OpNe, line := 1, column := 3, index := 2
               filename := "f", length := 2 }] ∧
    (Lexer.new ("f") ("&&")).tokenise
      = .ok [{ token_type := .OpAnd, line := 1, column := 3, index := 2
               filename := "f", length := 2 }] ∧
    (Lexer.new ("f") ("||")).tokenise
      = .ok [{ token_type := .OpOr, line := 1, column := 3, index := 2
               filename := "f", length := 2 }] ∧
    (Lexer.new ("f") ("=>")).tokenise
      = .ok [{ token_type := .Arrow, line := 1, column := 3, index := 2
               filename := "f", length := 2 }] ∧
    (Lexer.new ("f") ("..")).tokenise
      = .ok [{ token_type := .Range, line := 1, column := 3, index := 2
               filename := "f", length := 2 }] ∧
    (Lexer.new ("f") ("===")).tokenise
      = .ok [{ token_type := .OpEq, line := 1, column := 3, index := 2
               filename := "f", length := 2 },
             { token_type := .OpAssign, line := 1, column := 4, index := 3
               filename := "f", length := 1 }] := by
  exact ⟨rfl, rfl, rfl, rfl, rfl, rfl, rfl, rfl, rfl, rfl⟩

/-- C7: a literal run followed by a non-boundary character is a lexical
error of the matching kind.  `12a` fails with the invalid-numeric-suffix
error (message `Unexpected character in numeric literal: a`), and
`1.2.3` fails with the malformed-float error for a second decimal point
(message `Illegal second decimal point in float literal: ...`). -/
theorem claim_C7 :
    (Lexer.new ("f") ("12a")).tokenise
      = .err { line := 1, column := 3, index := 2, filename := "f"
               message := "Unexpected character in numeric literal: a"
               line_context := "12a" } ∧
    (Lexer.new ("f") ("1.2.3")).tokenise
      = .err { line := 1, column := 4, index := 3, filename := "f"
               message := Lexer.msg_second_dot
               line_context := "1.2.3" } := by
  exact ⟨rfl, rfl⟩

/-- C4 counterexample: the claim says that for every emitted token,
column minus length is the 1-based column of the token's first source
character.  For the negative literal `-5` the token's length is 1 (the
sign is not counted), its reported column is 3, and its first source
character is the minus sign at column 1, yet 3 - 1 = 2. -/
theorem claim_C4_counterexample :
    (Lexer.new ("f") ("-5")).tokenise
      = .ok [{ token_type := .Int (-5), line := 1, column := 3, index := 2
               filename := "f", length := 1 }] ∧
    ¬ ((3 : Nat) - 1 = 1) := by
  exact ⟨rfl, by decide⟩

/-- C4 (amended): for every token emitted by `get_token` (hence by a
successful `tokenise` call), the reported line/column is the cursor
position at the token's end; and subtracting the token's length from its
reported column yields the 1-based start column (the column after the
preceding whitespace skip) for every token except a folded negative
numeric literal (whose length omits the sign) and a string literal whose
source span contains a backslash escape or a multi-byte character (whose
length counts the escaped value's bytes, not the span). -/
theorem claim_C4 (fuel : Nat) (st stw : Lexer) (t : Token) (st' : Lexer)
    (hinv : LexInv st) (hfuel : st.source.length - st.index < fuel)
    (hw : Lexer.skip_whitespace fuel st = .ok stw)
    (hg : Lexer.get_token fuel st = .ok (t, st'))
    (hEOF : t.token_type ≠ .EOF)
    (hneg : ¬ (stw.peek 0 = some '-' ∧ ∃ d, stw.peek 1 = some d ∧ d.isDigit = true))
    (hspan : ∀ i x, stw.index ≤ i → i < st'.index → st.source[i]? = some x →
      x ≠ '\\' ∧ x.toNat ≤ 127) :
    t.line = st'.line ∧ t.column = st'.column ∧ t.index = st'.index ∧
    t.column = stw.column + t.length ∧ t.column - t.length = stw.column := by
  rcases get_token_spec fuel st hinv hfuel with
    ⟨t2, st2, g0, g1, g2, g3, g4, g5, g6, g7, g8, g9, g10, g11, stw2, gw, gcol⟩ |
    ⟨e, g0, _⟩ | g0 | g0
  · have heq : Res.ok (t, st') = Res.ok (t2, st2) := hg.symm.trans g0
    injection heq with heq
    injection heq with h1 h2
    subst h1
    subst h2
    have heqw : Res.ok stw = Res.ok stw2 := hw.symm.trans gw
    injection heqw with heqw
    subst heqw
    have hc := gcol hEOF hneg hspan
    exact ⟨g5, g6, g7, hc, by omega⟩
  · rw [hg] at g0
    exact Res.noConfusion g0
  · rw [hg] at g0
    exact Res.noConfusion g0
  · rw [hg] at g0
    exact Res.noConfusion g0

/-- C4 witness: instantiating the amended claim on the two-character
identifier source `ab`. -/
theorem claim_C4_witness :
    ({ token_type := .Ident "ab", line := 1, column := 3, index := 2
       filename := "f", length := 2 } : Token).line
      = ({ filename := "f", source := ['a', 'b'], index := 2, line := 1
           column := 3, lines := ["ab"] } : Lexer).line ∧
    ({ token_type := .Ident "ab", line := 1, column := 3, index := 2
       filename := "f", length := 2 } : Token).column
      = ({ filename := "f", source := ['a', 'b'], index := 2, line := 1
           column := 3, lines := ["ab"] } : Lexer).column ∧
    ({ token_type := .Ident "ab", line := 1, column := 3, index := 2
       filename := "f", length := 2 } : Token).index
      = ({ filename := "f", source := ['a', 'b'], index := 2, line := 1
           column := 3, lines := ["ab"] } : Lexer).index ∧
    ({ token_type := .Ident "ab", line := 1, column := 3, index := 2
       filename := "f", length := 2 } : Token).column
      = (Lexer.new ("f") ("ab")).column
        + ({ token_type := .Ident "ab", line := 1, column := 3, index := 2
             filename := "f", length := 2 } : Token).length ∧
    ({ token_type := .Ident "ab", line := 1, column := 3, index := 2
       filename := "f", length := 2 } : Token).column
      - ({ token_type := .Ident "ab", line := 1, column := 3, index := 2
           filename := "f", length := 2 } : Token).length
      = (Lexer.new ("f") ("ab")).column := by
  refine claim_C4 3 (Lexer.new ("f") ("ab")) (Lexer.new ("f") ("ab")) _ _
    (lexinv_new ("f") ("ab")) (by decide) rfl rfl (by decide) ?_ ?_
  · intro ⟨h, _⟩
    exact absurd h (by decide)
  · intro i x hi1 hi2 hx
    have hi2' : i < 2 := hi2
    interval_cases i
    · have hx' : some 'a' = some x :=
        (show (Lexer.new ("f") ("ab")).source[0]? = some 'a' from rfl).symm.trans hx
      injection hx' with hx'
      subst hx'
      exact ⟨by decide, by decide⟩
    · have hx' : some 'b' = some x :=
        (show (Lexer.new ("f") ("ab")).source[1]? = some 'b' from rfl).symm.trans hx
      injection hx' with hx'
      subst hx'
      exact ⟨by decide, by decide⟩

/-- C6: tokenising the six-character source quote,a,backslash,n,b,quote
yields exactly one String token whose value is the three characters a,
line feed, b with reported length 5; and in general every String token
of a successful tokenise call has length equal to the escaped value's
character count plus 2 for the quote delimiters (success forces the
whole source - hence the value - to be ASCII, where Rust's byte count
agrees with the character count). -/
theorem claim_C6 :
    ((Lexer.new ("f") ("\"a\\nb\"")).tokenise
      = .ok [{ token_type := .String "a\nb", line := 1, column := 7, index := 6
               filename := "f", length := 5 }]) ∧
    ∀ (fn src : String) (ts : List Token) (t : Token) (v : String),
      (Lexer.new fn src).tokenise = .ok ts → t ∈ ts →
      t.token_type = .String v → t.length = v.length + 2 := by
  constructor
  · rfl
  · intro fn src ts t v hok ht hv
    rcases tokenise_spec fn src with ⟨ts2, r0, r1, r2⟩ | ⟨e, r0, _⟩ | r0 | r0
    · have hts : Res.ok (α := List Token) ts = Res.ok ts2 := hok.symm.trans r0
      injection hts with hts
      subst hts
      obtain ⟨_, hstr⟩ := r2 t ht
      obtain ⟨hlen, hprov⟩ := hstr v hv
      have hascii := ascii_of_utf8_len_le src.data r1
      have hva : ∀ x ∈ v.data, x.toNat ≤ 127 := by
        intro x hx
        rcases hprov x hx with h | h
        · exact hascii x h
        · exact h
      have hu : utf8_len v.data = v.data.length := utf8_len_of_ascii _ hva
      rw [hlen, hu]
      rfl
    · rw [hok] at r0
      exact Res.noConfusion r0
    · rw [hok] at r0
      exact Res.noConfusion r0
    · rw [hok] at r0
      exact Res.noConfusion r0

/-- C6 witness: the general statement instantiated on the escaped
string literal example. -/
theorem claim_C6_witness :
    ({ token_type := .String "a\nb", line := 1, column := 7, index := 6
       filename := "f", length := 5 } : Token).length = ("a\nb" : String).length + 2 :=
  claim_C6.2 ("f") ("\"a\\nb\"") _ _ ("a\nb")
    claim_C6.1 (List.mem_singleton.mpr rfl) rfl

/-- C10: a raw (unescaped) line feed inside a string literal is accepted
as part of the value and does not touch the line counter, so tokens
after such a string report a line as if the embedded line feed had not
occurred: the string scanner preserves `line` on every success, and in
the two-line source quote,a,LF,b,quote,space,x both tokens report
line 1 (the `x` physically sits on the second line). -/
theorem claim_C10 :
    (∀ (fuel : Nat) (st : Lexer) (t : Token) (st' : Lexer),
      Lexer.get_string fuel st = .ok (t, st') → st'.line = st.line ∧ t.line = st'.line) ∧
    (Lexer.new ("f") ("\"a\nb\" x")).tokenise
      = .ok [{ token_type := .String "a\nb", line := 1, column := 6, index := 5
               filename := "f", length := 5 },
             { token_type := .Ident "x", line := 1, column := 8, index := 7
               filename := "f", length := 1 }] := by
  exact ⟨fun fuel st t st' h => get_string_line fuel st t st' h, rfl⟩

/-- C10 witness: line preservation instantiated on the empty string
literal. -/
theorem claim_C10_witness :
    ({ filename := "f", source := ['"', '"'], index := 2, line := 1
       column := 3, lines := ["\"\""] } : Lexer).line
      = (Lexer.new ("f") ("\"\"")).line ∧
    ({ token_type := .String "", line := 1, column := 3, index := 2
       filename := "f", length := 2 } : Token).line
      = ({ filename := "f", source := ['"', '"'], index := 2, line := 1
           column := 3, lines := ["\"\""] } : Lexer).line :=
  claim_C10.1 3 (Lexer.new ("f") ("\"\"")) _ _ rfl

/-! ## Whitespace-only sources -/

theorem is_ws_ascii (c : Char) (h : is_ws c = true) : c.toNat ≤ 127 := by
  simp only [is_ws, Bool.or_eq_true, decide_eq_true_eq] at h
  rcases h with ((rfl | rfl) | rfl) | rfl <;> decide

theorem skip_whitespace_all (fuel : Nat) (st : Lexer) (hinv : LexInv st)
    (hws : ∀ c ∈ st.source.drop st.index, is_ws c = true)
    (hfuel : st.source.length - st.index < fuel) :
    ∃ st', Lexer.skip_whitespace fuel st = .ok st' ∧ LexInv st' ∧
      st'.source = st.source ∧ st'.index = st.source.length := by
  obtain ⟨st', w0, w1, w2, _, _, w5, w6⟩ := skip_whitespace_spec fuel st hinv hfuel
  refine ⟨st', w0, w1, w2, ?_⟩
  rcases w6 with h | ⟨c2, hc2, hnw⟩
  · have h1 : st'.source.length ≤ st'.index := by
      rw [← List.getElem?_eq_none_iff]
      rw [peek_zero] at h
      have : st'.index + 0 = st'.index := by omega
      exact h
    have h2 := w1.1
    rw [w2] at h1 h2
    omega
  · exfalso
    have hc2' : st'.source[st'.index]? = some c2 := by rw [← peek_zero]; exact hc2
    rw [w2] at hc2'
    have hdrop : (st.source.drop st.index)[st'.index - st.index]? = some c2 := by
      rw [List.getElem?_drop]
      have heq : st.index + (st'.index - st.index) = st'.index := by omega
      rw [heq]
      exact hc2'
    have := hws c2 (List.getElem?_mem hdrop)
    rw [hnw] at this
    exact Bool.noConfusion this

theorem tokenise_loop_succ (f : Nat) (st : Lexer) :
    Lexer.tokenise_loop (f+1) st
      = match Lexer.get_token (f+1) st with
        | .ok (t, st') =>
          if t.token_type = .EOF then .ok []
          else
            match Lexer.tokenise_loop f st' with
            | .ok ts => .ok (t :: ts)
            | .err e => .err e
            | .abort k => .abort k
            | .outOfFuel => .outOfFuel
        | .err e => .err e
        | .abort k => .abort k
        | .outOfFuel => .outOfFuel := rfl

/-- C8: a source consisting only of whitespace characters (space, tab,
carriage return, line feed) tokenises to the empty sequence with no
error, and the length-0 end-of-input sentinel token is never part of any
returned sequence. -/
theorem claim_C8 :
    (∀ (fn src : String),
      (∀ c ∈ src.data, c = ' ' ∨ c = '\t' ∨ c = '\r' ∨ c = '\n') →
      (Lexer.new fn src).tokenise = .ok []) ∧
    (∀ (fn src : String) (ts : List Token) (t : Token),
      (Lexer.new fn src).tokenise = .ok ts → t ∈ ts → t.token_type ≠ .EOF) := by
  constructor
  · intro fn src hws
    have hws2 : ∀ c ∈ src.data, is_ws c = true := by
      intro c hc
      rcases hws c hc with rfl | rfl | rfl | rfl <;> rfl
    have hws' : ∀ c ∈ (Lexer.new fn src).source.drop (Lexer.new fn src).index,
        is_ws c = true := fun c hc => hws2 c hc
    obtain ⟨st', w0, w1, w2, widx⟩ :=
      skip_whitespace_all (src.data.length + 1) (Lexer.new fn src)
        (lexinv_new fn src) hws' (by simp [Lexer.new])
    have hsrc : st'.source = src.data := w2
    have hend : st'.is_end = true := by
      unfold Lexer.is_end
      apply decide_eq_true
      rw [hsrc, widx]
      have : utf8_len src.data = src.data.length :=
        utf8_len_of_ascii src.data (fun c hc => is_ws_ascii c (hws2 c hc))
      have hsl : (Lexer.new fn src).source.length = src.data.length := rfl
      omega
    have hget : Lexer.get_token (src.data.length + 1) (Lexer.new fn src)
        = .ok (st'.make_token .EOF 0, st') := by
      rw [Lexer.get_token, w0]
      dsimp only
      rw [hend, if_pos rfl]
    show Lexer.tokenise_loop (src.data.length + 1) (Lexer.new fn src) = .ok []
    rw [tokenise_loop_succ, hget]
    dsimp only
    rw [if_pos (show (st'.make_token TokenType.EOF 0).token_type = TokenType.EOF from rfl)]
  · intro fn src ts t hok ht
    rcases tokenise_spec fn src with ⟨ts2, r0, _, r2⟩ | ⟨e, r0, _⟩ | r0 | r0
    · have hts : Res.ok (α := List Token) ts = Res.ok ts2 := hok.symm.trans r0
      injection hts with hts
      subst hts
      exact (r2 t ht).1
    · rw [hok] at r0
      exact Res.noConfusion r0
    · rw [hok] at r0
      exact Res.noConfusion r0
    · rw [hok] at r0
      exact Res.noConfusion r0

/-- C8 witness: the whitespace-only part instantiated on a source with
all four whitespace characters. -/
theorem claim_C8_witness : (Lexer.new ("f") (" \t\r\n")).tokenise = .ok [] :=
  claim_C8.1 ("f") (" \t\r\n") (by decide)

/-- C9: the cursor invariant (line and column are at least 1, along with
the full state invariant `LexInv`) holds after construction and is
preserved by `advance`, `skip_whitespace` and every scanner, and every
error any of them or `tokenise` produces carries a line and column of at
least 1, so the formatter's `column - 1` and `lines[line - 1]`
subtractions never underflow below zero. -/
theorem claim_C9 :
    (∀ (fn src : String), LexInv (Lexer.new fn src) ∧
      1 ≤ (Lexer.new fn src).line ∧ 1 ≤ (Lexer.new fn src).column) ∧
    (∀ st : Lexer, LexInv st → LexInv (st.advance).2 ∧
      1 ≤ (st.advance).2.line ∧ 1 ≤ (st.advance).2.column) ∧
    (∀ (f : Nat) (st st' : Lexer), LexInv st → st.source.length - st.index < f →
      Lexer.skip_whitespace f st = .ok st' →
      LexInv st' ∧ 1 ≤ st'.line ∧ 1 ≤ st'.column) ∧
    (∀ (f : Nat) (st : Lexer) (t : Token) (st' : Lexer), LexInv st →
      st.source.length - st.index < f → Lexer.get_number f st = .ok (t, st') →
      LexInv st' ∧ 1 ≤ st'.line ∧ 1 ≤ st'.column) ∧
    (∀ (f : Nat) (st : Lexer) (e : TokenisationError), LexInv st →
      st.source.length - st.index < f → Lexer.get_number f st = .err e →
      1 ≤ e.line ∧ 1 ≤ e.column) ∧
    (∀ (f : Nat) (st : Lexer) (t : Token) (st' : Lexer), LexInv st →
      st.source.length - st.index < f → Lexer.get_ident f st = .ok (t, st') →
      LexInv st' ∧ 1 ≤ st'.line ∧ 1 ≤ st'.column) ∧
    (∀ (f : Nat) (st : Lexer) (e : TokenisationError), LexInv st →
      st.source.length - st.index < f → Lexer.get_ident f st = .err e →
      1 ≤ e.line ∧ 1 ≤ e.column) ∧
    (∀ (st : Lexer) (c : Char) (t : Token) (st' : Lexer), LexInv st →
      st.peek 0 = some c → c ≠ '\n' → Lexer.get_single st = .ok (t, st') →
      LexInv st' ∧ 1 ≤ st'.line ∧ 1 ≤ st'.column) ∧
    (∀ (st : Lexer) (c : Char) (e : TokenisationError), LexInv st →
      st.peek 0 = some c → c ≠ '\n' → Lexer.get_single st = .err e →
      1 ≤ e.line ∧ 1 ≤ e.column) ∧
    (∀ (st : Lexer) (c : Char) (t : Token) (st' : Lexer), LexInv st →
      st.peek 0 = some c → c ≠ '\n' → Lexer.get_multi st = .ok (t, st') →
      LexInv st' ∧ 1 ≤ st'.line ∧ 1 ≤ st'.column) ∧
    (∀ (st : Lexer) (c : Char) (e : TokenisationError), LexInv st →
      st.peek 0 = some c → c ≠ '\n' → Lexer.get_multi st = .err e →
      1 ≤ e.line ∧ 1 ≤ e.column) ∧
    (∀ (f : Nat) (st : Lexer) (c : Char) (t : Token) (st' : Lexer), LexInv st →
      st.peek 0 = some c → c ≠ '\n' → st.source.length - st.index < f →
      Lexer.get_string f st = .ok (t, st') →
      LexInv st' ∧ 1 ≤ st'.line ∧ 1 ≤ st'.column) ∧
    (∀ (f : Nat) (st : Lexer) (c : Char) (e : TokenisationError), LexInv st →
      st.peek 0 = some c → c ≠ '\n' → st.source.length - st.index < f →
      Lexer.get_string f st = .err e →
      1 ≤ e.line ∧ 1 ≤ e.column) ∧
    (∀ (f : Nat) (st : Lexer) (t : Token) (st' : Lexer), LexInv st →
      st.source.length - st.index < f → Lexer.get_token f st = .ok (t, st') →
      LexInv st' ∧ 1 ≤ st'.line ∧ 1 ≤ st'.column) ∧
    (∀ (f : Nat) (st : Lexer) (e : TokenisationError), LexInv st →
      st.source.length - st.index < f → Lexer.get_token f st = .err e →
      1 ≤ e.line ∧ 1 ≤ e.column) ∧
    (∀ (fn src : String) (e : TokenisationError),
      (Lexer.new fn src).tokenise = .err e →
      1 ≤ e.line ∧ 1 ≤ e.column ∧ e.column - 1 + 1 = e.column ∧ e.line - 1 + 1 = e.line) := by
  refine ⟨?_, ?_, ?_, ?_, ?_, ?_, ?_, ?_, ?_, ?_, ?_, ?_, ?_, ?_, ?_, ?_⟩
  · intro fn src
    have h := lexinv_new fn src
    exact ⟨h, h.2.1, h.2.2.1⟩
  · intro st hinv
    cases hpk : st.source[st.index]? with
    | none =>
      rw [advance_of_none st hpk]
      exact ⟨hinv, hinv.2.1, hinv.2.2.1⟩
    | some c =>
      rw [advance_some st c hpk]
      have h := lexinv_step st c hpk hinv
      exact ⟨h, h.2.1, h.2.2.1⟩
  · intro f st st' hinv hfuel hok
    obtain ⟨st2, w0, w1, _⟩ := skip_whitespace_spec f st hinv hfuel
    have h : Res.ok st' = Res.ok st2 := hok.symm.trans w0
    injection h with h
    subst h
    exact ⟨w1, w1.2.1, w1.2.2.1⟩
  · intro f st t st' hinv hfuel hok
    rcases get_number_spec f st hinv hfuel with
      ⟨t2, st2, g0, g1, _⟩ | ⟨e, g0, _⟩ | g0
    · have h : Res.ok (t, st') = Res.ok (t2, st2) := hok.symm.trans g0
      injection h with h
      injection h with h1 h2
      subst h1
      subst h2
      exact ⟨g1, g1.2.1, g1.2.2.1⟩
    · rw [hok] at g0
      exact Res.noConfusion g0
    · rw [hok] at g0
      exact Res.noConfusion g0
  · intro f st e hinv hfuel herr
    rcases get_number_spec f st hinv hfuel with
      ⟨t2, st2, g0, _⟩ | ⟨e2, g0, g1, g2⟩ | g0
    · rw [herr] at g0
      exact Res.noConfusion g0
    · have h : Res.err (α := Token × Lexer) e = Res.err e2 := herr.symm.trans g0
      injection h with h
      subst h
      exact ⟨g1, g2⟩
    · rw [herr] at g0
      exact Res.noConfusion g0
  · intro f st t st' hinv hfuel hok
    rcases get_ident_spec f st hinv hfuel with
      ⟨t2, st2, g0, g1, _⟩ | ⟨e, g0, _⟩
    · have h : Res.ok (t, st') = Res.ok (t2, st2) := hok.symm.trans g0
      injection h with h
      injection h with h1 h2
      subst h1
      subst h2
      exact ⟨g1, g1.2.1, g1.2.2.1⟩
    · rw [hok] at g0
      exact Res.noConfusion g0
  · intro f st e hinv hfuel herr
    rcases get_ident_spec f st hinv hfuel with
      ⟨t2, st2, g0, _⟩ | ⟨e2, g0, g1, g2⟩
    · rw [herr] at g0
      exact Res.noConfusion g0
    · have h : Res.err (α := Token × Lexer) e = Res.err e2 := herr.symm.trans g0
      injection h with h
      subst h
      exact ⟨g1, g2⟩
  · intro st c t st' hinv hpk hne hok
    rcases get_single_spec st c hinv hpk hne with
      ⟨t2, st2, g0, g1, _⟩ | ⟨e, g0, _⟩
    · have h : Res.ok (t, st') = Res.ok (t2, st2) := hok.symm.trans g0
      injection h with h
      injection h with h1 h2
      subst h1
      subst h2
      exact ⟨g1, g1.2.1, g1.2.2.1⟩
    · rw [hok] at g0
      exact Res.noConfusion g0
  · intro st c e hinv hpk hne herr
    rcases get_single_spec st c hinv hpk hne with
      ⟨t2, st2, g0, _⟩ | ⟨e2, g0, g1, g2⟩
    · rw [herr] at g0
      exact Res.noConfusion g0
    · have h : Res.err (α := Token × Lexer) e = Res.err e2 := herr.symm.trans g0
      injection h with h
      subst h
      exact ⟨g1, g2⟩
  · intro st c t st' hinv hpk hne hok
    rcases get_multi_spec st c hinv hpk hne with
      ⟨t2, st2, g0, g1, _⟩ | ⟨e, g0, _⟩
    · have h : Res.ok (t, st') = Res.ok (t2, st2) := hok.symm.trans g0
      injection h with h
      injection h with h1 h2
      subst h1
      subst h2
      exact ⟨g1, g1.2.1, g1.2.2.1⟩
    · rw [hok] at g0
      exact Res.noConfusion g0
  · intro st c e hinv hpk hne herr
    rcases get_multi_spec st c hinv hpk hne with
      ⟨t2, st2, g0, _⟩ | ⟨e2, g0, g1, g2⟩
    · rw [herr] at g0
      exact Res.noConfusion g0
    · have h : Res.err (α := Token × Lexer) e = Res.err e2 := herr.symm.trans g0
      injection h with h
      subst h
      exact ⟨g1, g2⟩
  · intro f st c t st' hinv hpk hne hfuel hok
    rcases get_string_spec f st c hinv hpk hne hfuel with
      ⟨t2, st2, v, g0, g1, _⟩ | ⟨e, g0, _⟩
    · have h : Res.ok (t, st') = Res.ok (t2, st2) := hok.symm.trans g0
      injection h with h
      injection h with h1 h2
      subst h1
      subst h2
      exact ⟨g1, g1.2.1, g1.2.2.1⟩
    · rw [hok] at g0
      exact Res.noConfusion g0
  · intro f st c e hinv hpk hne hfuel herr
    rcases get_string_spec f st c hinv hpk hne hfuel with
      ⟨t2, st2, v, g0, _⟩ | ⟨e2, g0, g1, g2⟩
    · rw [herr] at g0
      exact Res.noConfusion g0
    · have h : Res.err (α := Token × Lexer) e = Res.err e2 := herr.symm.trans g0
      injection h with h
      subst h
      exact ⟨g1, g2⟩
  · intro f st t st' hinv hfuel hok
    rcases get_token_spec f st hinv hfuel with
      ⟨t2, st2, g0, g1, _⟩ | ⟨e, g0, _⟩ | g0 | g0
    · have h : Res.ok (t, st') = Res.ok (t2, st2) := hok.symm.trans g0
      injection h with h
      injection h with h1 h2
      subst h1
      subst h2
      exact ⟨g1, g1.2.1, g1.2.2.1⟩
    · rw [hok] at g0
      exact Res.noConfusion g0
    · rw [hok] at g0
      exact Res.noConfusion g0
    · rw [hok] at g0
      exact Res.noConfusion g0
  · intro f st e hinv hfuel herr
    rcases get_token_spec f st hinv hfuel with
      ⟨t2, st2, g0, _⟩ | ⟨e2, g0, g1, g2⟩ | g0 | g0
    · rw [herr] at g0
      exact Res.noConfusion g0
    · have h : Res.err (α := Token × Lexer) e = Res.err e2 := herr.symm.trans g0
      injection h with h
      subst h
      exact ⟨g1, g2⟩
    · rw [herr] at g0
      exact Res.noConfusion g0
    · rw [herr] at g0
      exact Res.noConfusion g0
  · intro fn src e herr
    rcases tokenise_spec fn src with
      ⟨ts, r0, _⟩ | ⟨e2, r0, r1, r2⟩ | r0 | r0
    · rw [herr] at r0
      exact Res.noConfusion r0
    · have h : Res.err (α := List Token) e = Res.err e2 := herr.symm.trans r0
      injection h with h
      subst h
      exact ⟨r1, r2, by omega, by omega⟩
    · rw [herr] at r0
      exact Res.noConfusion r0
    · rw [herr] at r0
      exact Res.noConfusion r0

/-- C9 witness: the error-position bound of the final component,
instantiated on the unscannable source `@`. -/
theorem claim_C9_witness :
    1 ≤ ({ line := 1, column := 1, index := 0, filename := "f"
           message := "Unexpected character: @", line_context := "@" }
          : TokenisationError).line ∧
    1 ≤ ({ line := 1, column := 1, index := 0, filename := "f"
           message := "Unexpected character: @", line_context := "@" }
          : TokenisationError).column ∧
    ({ line := 1, column := 1, index := 0, filename := "f"
       message := "Unexpected character: @", line_context := "@" }
      : TokenisationError).column - 1 + 1
      = ({ line := 1, column := 1, index := 0, filename := "f"
           message := "Unexpected character: @", line_context := "@" }
          : TokenisationError).column ∧
    ({ line := 1, column := 1, index := 0, filename := "f"
       message := "Unexpected character: @", line_context := "@" }
      : TokenisationError).line - 1 + 1
      = ({ line := 1, column := 1, index := 0, filename := "f"
           message := "Unexpected character: @", line_context := "@" }
          : TokenisationError).line :=
  claim_C9.2.2.2.2.2.2.2.2.2.2.2.2.2.2.2 ("f") ("@") _ rfl

/-! ## Exact evaluation on digit runs -/

theorem digit_ascii (c : Char) (h : c.isDigit = true) : c.toNat ≤ 127 := by
  simp only [Char.isDigit, Bool.and_eq_true, decide_eq_true_eq] at h
  obtain ⟨_, h2⟩ := h
  have h3 : c.val.toNat ≤ 57 := UInt32.toNat_le_of_le (by decide) h2
  simp only [Char.toNat]
  omega

theorem digit_not_special (d : Char) (h : d.isDigit = true) :
    d ≠ '-' ∧ d ≠ '+' ∧ d ≠ '*' ∧ d ≠ '/' ∧ d ≠ '%' ∧ d ≠ ',' ∧ d ≠ '.' ∧ d ≠ '!' ∧
    d ≠ '=' ∧ d ≠ '<' ∧ d ≠ '>' ∧ d ≠ '&' ∧ d ≠ '|' ∧ d ≠ '(' ∧ d ≠ ')' ∧
    d ≠ '{' ∧ d ≠ '}' := by
  refine ⟨?_, ?_, ?_, ?_, ?_, ?_, ?_, ?_, ?_, ?_, ?_, ?_, ?_, ?_, ?_, ?_, ?_⟩ <;>
    (intro hc; subst hc; exact absurd h (by decide))

theorem skip_whitespace_nop (f : Nat) (st : Lexer) (c : Char)
    (hpk : st.source[st.index]? = some c) (hws : is_ws c = false) :
    Lexer.skip_whitespace (f+1) st = .ok st := by
  have hpk' : st.peek 0 = some c := by rw [peek_zero]; exact hpk
  simp only [is_ws, Bool.or_eq_false_iff, decide_eq_false_iff_not] at hws
  simp [Lexer.skip_whitespace, hpk', hws.1.1.1, hws.1.1.2, hws.1.2, hws.2]

theorem skip_whitespace_end (f : Nat) (st : Lexer) (hpk : st.source[st.index]? = none) :
    Lexer.skip_whitespace (f+1) st = .ok st := by
  have hpk' : st.peek 0 = none := by rw [peek_zero]; exact hpk
  simp [Lexer.skip_whitespace, hpk']

theorem number_scan_digits : ∀ (ds : List Char) (f : Nat) (st : Lexer)
    (acc : List Char) (isf : Bool),
    st.source.drop st.index = ds → (∀ c ∈ ds, c.isDigit = true) → ds.length < f →
    Lexer.number_scan f st acc isf
      = .ok (acc ++ ds, isf,
          { st with index := st.index + ds.length, column := st.column + ds.length }) := by
  intro ds
  induction ds with
  | nil =>
    intro f st acc isf hrem _ hf
    cases f with
    | zero => omega
    | succ f2 =>
      have hpk : st.peek 0 = none := by
        show st.source[st.index + 0]? = none
        rw [← List.getElem?_drop, hrem]
        rfl
      simp [Lexer.number_scan, hpk]
  | cons d ds' ih =>
    intro f st acc isf hrem hds hf
    cases f with
    | zero => simp at hf
    | succ f2 =>
      have hpk : st.source[st.index]? = some d := by
        have h0 : st.source[st.index + 0]? = some d := by
          rw [← List.getElem?_drop, hrem]
          simp
        rw [Nat.add_zero] at h0
        exact h0
      have hpk' : st.peek 0 = some d := by rw [peek_zero]; exact hpk
      have hd : d.isDigit = true := hds d (by simp)
      have hadv := advance_some st d hpk
      have heq : Lexer.number_scan (f2+1) st acc isf
          = Lexer.number_scan f2 { st with index := st.index + 1, column := st.column + 1 }
              (acc ++ [d]) isf := by
        simp [Lexer.number_scan, hpk', hd, hadv]
      rw [heq]
      have hrem' : ({ st with index := st.index + 1, column := st.column + 1 }
          : Lexer).source.drop (st.index + 1) = ds' := by
        show st.source.drop (st.index + 1) = ds'
        have hdd : st.source.drop (st.index + 1) = (st.source.drop st.index).drop 1 := by
          rw [List.drop_drop]
        rw [hdd, hrem]
        rfl
      rw [ih f2 _ (acc ++ [d]) isf hrem' (fun c hc => hds c (by simp [hc]))
        (by simp at hf ⊢; omega)]
      dsimp only
      have h1 : st.index + 1 + ds'.length = st.index + (d :: ds').length := by
        simp
        omega
      have h2 : st.column + 1 + ds'.length = st.column + (d :: ds').length := by
        simp
        omega
      rw [h1, h2, List.append_assoc]
      rfl

theorem get_number_digits (f : Nat) (st : Lexer) (ds : List Char)
    (hrem : st.source.drop st.index = ds) (hne : ds ≠ [])
    (hds : ∀ c ∈ ds, c.isDigit = true) (hbound : digits_val ds ≤ i64_max)
    (hf : ds.length < f) :
    Lexer.get_number f st
      = .ok (Lexer.make_token
               { st with index := st.index + ds.length, column := st.column + ds.length }
               (.Int (Int.ofNat (digits_val ds))) ds.length,
             { st with index := st.index + ds.length, column := st.column + ds.length }) := by
  have hscan := number_scan_digits ds f st [] false hrem hds hf
  have hlen : st.source.length = st.index + ds.length := by
    have h1 : (st.source.drop st.index).length = ds.length := by rw [hrem]
    rw [List.length_drop] at h1
    by_cases hle : st.index ≤ st.source.length
    · omega
    · exfalso
      have : st.source.drop st.index = [] := by
        apply List.drop_eq_nil_of_le
        omega
      rw [this] at hrem
      exact hne hrem.symm
  have hpkE : ({ st with index := st.index + ds.length, column := st.column + ds.length }
      : Lexer).peek 0 = none := by
    show st.source[st.index + ds.length + 0]? = none
    rw [Nat.add_zero]
    rw [List.getElem?_eq_none_iff]
    omega
  have hbdy : ({ st with index := st.index + ds.length, column := st.column + ds.length }
      : Lexer).is_boundary = true := by
    rw [Lexer.is_boundary, hpkE]
  have hemp : ds.isEmpty = false := by
    cases ds
    · exact absurd rfl hne
    · rfl
  have hparse : parse_i64 ds = some (Int.ofNat (digits_val ds)) := by
    unfold parse_i64
    rw [hemp]
    simp only [Bool.false_eq_true, if_false]
    rw [if_pos hbound]
  rw [Lexer.get_number, hscan]
  dsimp only
  simp only [List.nil_append]
  rw [hbdy]
  rw [if_pos rfl]
  simp only [Bool.false_eq_true, if_false]
  rw [hparse]

theorem tokenise_loop_at_end (f : Nat) (st : Lexer)
    (hpk : st.source[st.index]? = none) (hend : st.is_end = true) (hf : 1 ≤ f) :
    Lexer.tokenise_loop f st = .ok [] := by
  cases f with
  | zero => omega
  | succ f2 =>
    have hget : Lexer.get_token (f2+1) st = .ok (st.make_token .EOF 0, st) := by
      rw [Lexer.get_token, skip_whitespace_end f2 st hpk]
      dsimp only
      rw [hend, if_pos rfl]
    rw [tokenise_loop_succ, hget]
    dsimp only
    rw [if_pos (show (st.make_token TokenType.EOF 0).token_type = TokenType.EOF from rfl)]

theorem digit_not_ws (d : Char) (h : d.isDigit = true) : is_ws d = false := by
  simp only [is_ws, Bool.or_eq_false_iff, decide_eq_false_iff_not]
  refine ⟨⟨⟨?_, ?_⟩, ?_⟩, ?_⟩ <;> (intro hc; subst hc; exact absurd h (by decide))

set_option maxHeartbeats 2000000 in
theorem get_token_digit (f : Nat) (st : Lexer) (d : Char)
    (hpk : st.peek 0 = some d) (hd : d.isDigit = true)
    (hws : Lexer.skip_whitespace (f+1) st = .ok st) (hend : st.is_end = false) :
    Lexer.get_token (f+1) st = Lexer.get_number (f+1) st := by
  obtain ⟨c, hpkc, hc⟩ : ∃ c, st.peek 0 = some c ∧ c = d := ⟨d, hpk, rfl⟩
  rw [Lexer.get_token, hws]
  dsimp only
  rw [hend]
  simp only [Bool.false_eq_true, if_false]
  rw [hpkc]
  dsimp only
  split
  all_goals first
    | (subst hc; exact absurd hd (by decide))
    | (rw [hc, if_pos hd])

set_option maxHeartbeats 2000000 in
theorem get_token_minus (f : Nat) (st : Lexer) (d : Char) (t : Token) (st2 : Lexer)
    (hpk : st.peek 0 = some '-') (hpk1 : st.peek 1 = some d) (hd : d.isDigit = true)
    (hws : Lexer.skip_whitespace (f+1) st = .ok st) (hend : st.is_end = false)
    (hnum : Lexer.get_number (f+1) (st.advance).2 = .ok (t, st2)) :
    Lexer.get_token (f+1) st
      = .ok ({ t with token_type := Lexer.negate_token t.token_type }, st2) := by
  obtain ⟨c, hpkc, hc⟩ : ∃ c, st.peek 0 = some c ∧ c = '-' := ⟨'-', hpk, rfl⟩
  rw [Lexer.get_token, hws]
  dsimp only
  rw [hend]
  simp only [Bool.false_eq_true, if_false]
  rw [hpkc]
  dsimp only
  split
  all_goals first
    | exact absurd hc (by decide)
    | exact absurd hc (by assumption)
    | (rw [hpk1]; dsimp only; rw [if_pos hd, hnum])

theorem tokenise_loop_at_end_upd (f : Nat) (st : Lexer) (i col : Nat)
    (hlen : utf8_len st.source ≤ i) (hlen2 : st.source.length ≤ i) (hf : 1 ≤ f) :
    Lexer.tokenise_loop f { st with index := i, column := col } = .ok [] := by
  apply tokenise_loop_at_end
  · rw [List.getElem?_eq_none_iff]
    exact hlen2
  · rw [Lexer.is_end]
    exact decide_eq_true hlen
  · exact hf

theorem tokenise_digits (fn : String) (ds : List Char) (hne : ds ≠ [])
    (hds : ∀ c ∈ ds, c.isDigit = true) (hbound : digits_val ds ≤ i64_max) :
    ∃ t : Token, (Lexer.new fn (String.mk ds)).tokenise = .ok [t] ∧
      t.token_type = .Int (Int.ofNat (digits_val ds)) := by
  obtain ⟨d0, ds2, rfl⟩ : ∃ d0 ds2, ds = d0 :: ds2 := by
    cases ds with
    | nil => exact absurd rfl hne
    | cons a l => exact ⟨a, l, rfl⟩
  have hd0 : d0.isDigit = true := hds d0 (by simp)
  have hpk0a : (Lexer.new fn (String.mk (d0 :: ds2))).source[(Lexer.new fn
      (String.mk (d0 :: ds2))).index]? = some d0 := by
    simp [Lexer.new]
  have hpk0 : (Lexer.new fn (String.mk (d0 :: ds2))).peek 0 = some d0 := by
    rw [peek_zero]; exact hpk0a
  have hws : Lexer.skip_whitespace ((d0 :: ds2).length + 1)
      (Lexer.new fn (String.mk (d0 :: ds2)))
      = .ok (Lexer.new fn (String.mk (d0 :: ds2))) :=
    skip_whitespace_nop (d0 :: ds2).length _ d0 hpk0a (digit_not_ws d0 hd0)
  have hend : (Lexer.new fn (String.mk (d0 :: ds2))).is_end = false := by
    rw [Lexer.is_end]
    apply decide_eq_false
    show ¬ (utf8_len (d0 :: ds2) ≤ 0)
    have h1 := length_le_utf8_len (d0 :: ds2)
    simp only [List.length_cons] at h1
    omega
  have hget := get_token_digit (d0 :: ds2).length _ d0 hpk0 hd0 hws hend
  have hnum := get_number_digits ((d0 :: ds2).length + 1)
    (Lexer.new fn (String.mk (d0 :: ds2))) (d0 :: ds2) rfl hne hds hbound
    (Nat.lt_succ_self _)
  exact ⟨_, by
    rw [Lexer.tokenise]
    have hlen2 : (Lexer.new fn (String.mk (d0 :: ds2))).source.length
        = (d0 :: ds2).length := rfl
    rw [hlen2, tokenise_loop_succ, hget, hnum]
    dsimp only
    rw [if_neg (fun hc => TokenType.noConfusion hc)]
    rw [tokenise_loop_at_end_upd (d0 :: ds2).length
        (Lexer.new fn (String.mk (d0 :: ds2)))
        ((Lexer.new fn (String.mk (d0 :: ds2))).index + (d0 :: ds2).length)
        ((Lexer.new fn (String.mk (d0 :: ds2))).column + (d0 :: ds2).length)
        (by show utf8_len (d0 :: ds2) ≤ 0 + (d0 :: ds2).length
            rw [utf8_len_of_ascii (d0 :: ds2) (fun c hc => digit_ascii c (hds c hc))]
            omega)
        (by show (d0 :: ds2).length ≤ 0 + (d0 :: ds2).length
            omega)
        (by simp only [List.length_cons]; omega)], rfl⟩

theorem tokenise_neg_digits (fn : String) (ds : List Char) (hne : ds ≠ [])
    (hds : ∀ c ∈ ds, c.isDigit = true) (hbound : digits_val ds ≤ i64_max) :
    ∃ t : Token, (Lexer.new fn (String.mk ('-' :: ds))).tokenise = .ok [t] ∧
      t.token_type = .Int (-(Int.ofNat (digits_val ds))) := by
  obtain ⟨d0, ds2, rfl⟩ : ∃ d0 ds2, ds = d0 :: ds2 := by
    cases ds with
    | nil => exact absurd rfl hne
    | cons a l => exact ⟨a, l, rfl⟩
  have hd0 : d0.isDigit = true := hds d0 (by simp)
  have hpk0a : (Lexer.new fn (String.mk ('-' :: d0 :: ds2))).source[(Lexer.new fn
      (String.mk ('-' :: d0 :: ds2))).index]? = some '-' := by
    simp [Lexer.new]
  have hpk0 : (Lexer.new fn (String.mk ('-' :: d0 :: ds2))).peek 0 = some '-' := by
    rw [peek_zero]; exact hpk0a
  have hpk1 : (Lexer.new fn (String.mk ('-' :: d0 :: ds2))).peek 1 = some d0 := by
    show ('-' :: d0 :: ds2)[0 + 1]? = some d0
    simp
  have hws : Lexer.skip_whitespace ((d0 :: ds2).length + 1 + 1)
      (Lexer.new fn (String.mk ('-' :: d0 :: ds2)))
      = .ok (Lexer.new fn (String.mk ('-' :: d0 :: ds2))) :=
    skip_whitespace_nop ((d0 :: ds2).length + 1) _ '-' hpk0a (by decide)
  have hend : (Lexer.new fn (String.mk ('-' :: d0 :: ds2))).is_end = false := by
    rw [Lexer.is_end]
    apply decide_eq_false
    show ¬ (utf8_len ('-' :: d0 :: ds2) ≤ 0)
    have h1 := length_le_utf8_len ('-' :: d0 :: ds2)
    simp only [List.length_cons] at h1
    omega
  have hrem : ((Lexer.new fn (String.mk ('-' :: d0 :: ds2))).advance).2.source.drop
      ((Lexer.new fn (String.mk ('-' :: d0 :: ds2))).advance).2.index = d0 :: ds2 := by
    rw [advance_some _ '-' hpk0a]
    show ('-' :: d0 :: ds2).drop (0 + 1) = d0 :: ds2
    simp
  have hnum := get_number_digits ((d0 :: ds2).length + 1 + 1)
    ((Lexer.new fn (String.mk ('-' :: d0 :: ds2))).advance).2
    (d0 :: ds2) hrem hne hds hbound (by simp only [List.length_cons]; omega)
  have hget := get_token_minus ((d0 :: ds2).length + 1) _ d0 _ _ hpk0 hpk1 hd0 hws hend hnum
  have hall : ∀ c ∈ ('-' :: d0 :: ds2), c.toNat ≤ 127 := by
    intro c hc
    rcases List.mem_cons.mp hc with rfl | hc2
    · decide
    · exact digit_ascii c (hds c hc2)
  exact ⟨_, by
    rw [Lexer.tokenise]
    have hlen2 : (Lexer.new fn (String.mk ('-' :: d0 :: ds2))).source.length
        = (d0 :: ds2).length + 1 := rfl
    rw [hlen2, tokenise_loop_succ, hget]
    dsimp only
    rw [if_neg (fun hc => TokenType.noConfusion hc)]
    rw [tokenise_loop_at_end_upd ((d0 :: ds2).length + 1)
        ((Lexer.new fn (String.mk ('-' :: d0 :: ds2))).advance).2
        (((Lexer.new fn (String.mk ('-' :: d0 :: ds2))).advance).2.index
          + (d0 :: ds2).length)
        (((Lexer.new fn (String.mk ('-' :: d0 :: ds2))).advance).2.column
          + (d0 :: ds2).length)
        (by rw [advance_some _ '-' hpk0a]
            show utf8_len ('-' :: d0 :: ds2) ≤ 0 + 1 + (d0 :: ds2).length
            rw [utf8_len_of_ascii ('-' :: d0 :: ds2) hall]
            simp only [List.length_cons]
            omega)
        (by rw [advance_some _ '-' hpk0a]
            show ('-' :: d0 :: ds2).length ≤ 0 + 1 + (d0 :: ds2).length
            simp only [List.length_cons]
            omega)
        (by omega)], rfl⟩

/-- C3: for every nonempty all-digit run whose value fits in a signed
64-bit integer, tokenising the run alone yields exactly one `Int` token
carrying the value, and tokenising the run prefixed by `-` (with the
digit immediately following the sign) yields exactly one `Int` token
carrying the negated value - not an `OpSub` token followed by an `Int`
token. -/
theorem claim_C3 (fn : String) (ds : List Char) (hne : ds ≠ [])
    (hds : ∀ c ∈ ds, c.isDigit = true) (hbound : digits_val ds ≤ i64_max) :
    (∃ t : Token, (Lexer.new fn (String.mk ds)).tokenise = .ok [t] ∧
       t.token_type = .Int (Int.ofNat (digits_val ds))) ∧
    (∃ t : Token, (Lexer.new fn (String.mk ('-' :: ds))).tokenise = .ok [t] ∧
       t.token_type = .Int (-(Int.ofNat (digits_val ds)))) :=
  ⟨tokenise_digits fn ds hne hds hbound, tokenise_neg_digits fn ds hne hds hbound⟩

/-- C3 witness: the literal `42` tokenises to the single token
`Int 42`, and `-42` to the single token `Int (-42)`. -/
theorem claim_C3_witness :
    (∃ t : Token, (Lexer.new ("f") (String.mk ['4', '2'])).tokenise = .ok [t] ∧
       t.token_type = .Int (Int.ofNat (digits_val ['4', '2']))) ∧
    (∃ t : Token, (Lexer.new ("f") (String.mk ('-' :: ['4', '2']))).tokenise = .ok [t] ∧
       t.token_type = .Int (-(Int.ofNat (digits_val ['4', '2'])))) :=
  claim_C3 ("f") ['4', '2'] (by decide) (by decide) (by decide)
